import Mathlib

/-!
# Disk health telemetry: `pkg/snapshot/smartctl.go`

A shallow embedding of the disk discovery and smartctl parsing code.

Modelling conventions
* A Go `string` is a list of Unicode code points (`GoString`).  Every separator
  the code searches for is ASCII, so positions found on code points cut the
  text at the same place as Go's byte offsets do.
* A Go `map[string]V` is an association list with insert-or-overwrite (`GoMap`);
  a map field that was never allocated is `none` and assigning into it panics.
* The operating system and the external `smartctl` executable are a `Host`
  record: platform flags, the partition and block-device inventories, and the
  outcome of every command line.
* Each call of `readyCommand` is appended to the history field `calls` of the
  snapshot, so that theorems can speak about the invocations that were made.
* `int` is 64 bits wide.
-/

namespace Smartctl

/-! ## Strings -/

abbrev GoString := List Char

/-- Go `strings.HasPrefix`. -/
def HasPrefix (s pre : GoString) : Bool := pre.isPrefixOf s

/-- Go `strings.TrimPrefix`. -/
def TrimPrefix (s pre : GoString) : GoString :=
  if HasPrefix s pre then s.drop pre.length else s

/-- Scan for the first position at which `sep` starts; `i` is the current offset. -/
def Index.go (sep : GoString) : List Char → Nat → Int
  | [], i => if sep.isEmpty then (i : Int) else -1
  | c :: cs, i => if sep.isPrefixOf (c :: cs) then (i : Int) else Index.go sep cs (i + 1)

/-- Go `strings.Index`: offset of the first occurrence of `sep` in `s`, or `-1`. -/
def Index (s sep : GoString) : Int := Index.go sep s 0

/-- Go `strings.Contains`. -/
def Contains (s substr : GoString) : Bool := decide (0 ≤ Index s substr)

/-- Go `unicode.IsSpace`. -/
def isSpace (c : Char) : Bool :=
  let n := c.toNat
  n = 0x09 || n = 0x0A || n = 0x0B || n = 0x0C || n = 0x0D || n = 0x20 ||
  n = 0x85 || n = 0xA0 || n = 0x1680 || (0x2000 ≤ n && n ≤ 0x200A) ||
  n = 0x2028 || n = 0x2029 || n = 0x202F || n = 0x205F || n = 0x3000

/-- Worker of `Fields`: `cur` is the field being read, most recent character first. -/
def Fields.go : List Char → List Char → List GoString
  | cur, [] => if cur.isEmpty then [] else [cur.reverse]
  | cur, c :: cs =>
    if isSpace c then
      if cur.isEmpty then Fields.go [] cs else cur.reverse :: Fields.go [] cs
    else Fields.go (c :: cur) cs

/-- Go `strings.Fields`: the maximal runs of non-space characters. -/
def Fields (s : GoString) : List GoString := Fields.go [] s

/-- Worker of `Split`: `cur` is the piece being read, most recent character first. -/
def Split.go (sep : Char) : List Char → List Char → List GoString
  | cur, [] => [cur.reverse]
  | cur, c :: cs => if c = sep then cur.reverse :: Split.go sep [] cs else Split.go sep (c :: cur) cs

/-- Go `strings.Split` for a separator of one character (the code splits on ":"). -/
def Split (s : GoString) (sep : Char) : List GoString := Split.go sep [] s

/-- Go `strings.ReplaceAll` for an old text of one character (the code replaces ","). -/
def ReplaceAll (s : GoString) (old : Char) (new : GoString) : GoString :=
  s.flatMap (fun c => if c = old then new else [c])

/-- Go `unicode.ToLower`: ASCII letters are handled directly, every other code
point goes through the Unicode case table `tbl`. -/
def toLowerRune (tbl : Char → Char) (c : Char) : Char :=
  if c.toNat ≤ 127 then (if 'A'.toNat ≤ c.toNat ∧ c.toNat ≤ 'Z'.toNat then Char.ofNat (c.toNat + 32) else c)
  else tbl c

/-- Go `strings.ToLower`. -/
def ToLower (tbl : Char → Char) (s : GoString) : GoString := s.map (toLowerRune tbl)

/-! ## Integers: `strconv.Atoi` -/

inductive NumError
  | ErrSyntax
  | ErrRange
  deriving DecidableEq, Repr

def isDigit (c : Char) : Bool := decide ('0'.toNat ≤ c.toNat) && decide (c.toNat ≤ '9'.toNat)

/-- Go `strconv.ParseUint(s, 10, 64)` on a non-empty text, `n` being the value read so far:
the first character that is not a digit is a syntax error with value 0, the first
step that leaves 64 bits is a range error with the largest value. -/
def parseUint : List Char → Nat → Nat × Option NumError
  | [], n => (n, none)
  | c :: cs, n =>
    if isDigit c then
      let n1 := n * 10 + (c.toNat - '0'.toNat)
      if n1 > 2 ^ 64 - 1 then (2 ^ 64 - 1, some NumError.ErrRange) else parseUint cs n1
    else (0, some NumError.ErrSyntax)

/-- Go `strconv.ParseInt` after the sign has been taken off: `neg` tells whether
the sign was `-`, `body` is the rest. -/
def Atoi.signed (neg : Bool) (body : GoString) : Int × Option NumError :=
  if body.isEmpty then (0, some NumError.ErrSyntax)
  else
    match parseUint body 0 with
    | (_, some NumError.ErrSyntax) => (0, some NumError.ErrSyntax)
    | (un, _) =>
      if !neg && decide (un ≥ 2 ^ 63) then ((2 : Int) ^ 63 - 1, some NumError.ErrRange)
      else if neg && decide (un > 2 ^ 63) then (-(2 : Int) ^ 63, some NumError.ErrRange)
      else (if neg then -(un : Int) else (un : Int), none)

/-- Go `strconv.Atoi`: the value and the error.  On a syntax error the value is 0,
on a range error it is the nearest bound of `int`. -/
def Atoi (s : GoString) : Int × Option NumError :=
  Atoi.signed (s.head? == some '-')
    (if s.head? == some '-' || s.head? == some '+' then s.drop 1 else s)

/-- Worker of `natDigits`, Go's `formatBits` loop: peel the last digit until the
quotient is 0. -/
def natDigits.go : Nat → Nat → List Char → List Char
  | 0, _, acc => acc
  | fuel + 1, n, acc =>
    let acc1 := Char.ofNat ('0'.toNat + n % 10) :: acc
    if n / 10 = 0 then acc1 else natDigits.go fuel (n / 10) acc1

def natDigits (n : Nat) : List Char := natDigits.go (n + 1) n []

/-- Go `strconv.Itoa`: the decimal rendering of an integer. -/
def Itoa (n : Int) : GoString :=
  if n < 0 then '-' :: natDigits n.natAbs else natDigits n.natAbs

/-! ## Maps, errors, the host -/

/-- A Go map with string keys. -/
structure GoMap (V : Type) where
  entries : List (GoString × V)
  deriving DecidableEq, Repr

/-- Insert-or-overwrite on the entry list. -/
def setEntries {V : Type} : List (GoString × V) → GoString → V → List (GoString × V)
  | [], k, v => [(k, v)]
  | (k1, v1) :: es, k, v => if k1 = k then (k, v) :: es else (k1, v1) :: setEntries es k v

namespace GoMap

/-- Go `make(map[string]V)`. -/
def make {V : Type} : GoMap V := ⟨[]⟩

/-- Go `m[k]` with the presence flag. -/
def get? {V : Type} (m : GoMap V) (k : GoString) : Option V := m.entries.lookup k

/-- Go `m[k] = v`. -/
def set {V : Type} (m : GoMap V) (k : GoString) (v : V) : GoMap V := ⟨setEntries m.entries k v⟩

/-- Go `len(m)`. -/
def len {V : Type} (m : GoMap V) : Nat := m.entries.length

end GoMap

/-- The disk set: canonical name to controller hint. -/
abbrev DiskSet := GoMap GoString

inductive GoError
  | ErrNoDisks
  | external (msg : GoString)
  | wrap (msg : GoString) (err : GoError)
  deriving DecidableEq, Repr

/-- A run-time panic of the Go program. -/
inductive Panic
  | indexOutOfRange
  | nilMap
  deriving DecidableEq, Repr

instance decEqExcept {ε α : Type} [DecidableEq ε] [DecidableEq α] : DecidableEq (Except ε α)
  | Except.ok a, Except.ok b =>
    if hab : a = b then isTrue (by rw [hab]) else isFalse (fun hh => hab (by injection hh))
  | Except.error a, Except.error b =>
    if hab : a = b then isTrue (by rw [hab]) else isFalse (fun hh => hab (by injection hh))
  | Except.ok _, Except.error _ => isFalse (fun hh => by cases hh)
  | Except.error _, Except.ok _ => isFalse (fun hh => by cases hh)

/-- What `readyCommand` followed by `runCommand` gives for one command line:
either the command cannot be prepared, or it runs, prints `stdout` and ends with
an optional error. -/
inductive CmdResult
  | notReady (err : GoError)
  | ran (stdout : List GoString) (exit : Option GoError)
  deriving DecidableEq, Repr

/-- One call of `readyCommand`. -/
structure Invocation where
  useSudo : Bool
  cmd : GoString
  args : List GoString
  deriving DecidableEq, Repr

/-- A partition as reported by `disk.PartitionsWithContext` (the fields the code reads). -/
structure PartitionStat where
  Device : GoString
  Opts : List GoString
  deriving DecidableEq, Repr

/-- A block device as reported by `ghw.Block` (the fields the code reads). -/
structure BlockDisk where
  Name : GoString
  BusPath : GoString
  deriving DecidableEq, Repr

/-- The platform and the external collaborators. -/
structure Host where
  IsDarwin : Bool
  IsSynology : Bool
  IsWindows : Bool
  partitions : List PartitionStat
  partitionsErr : Option GoError
  blockDisks : List BlockDisk
  blockErr : Option GoError
  command : Bool → GoString → List GoString → CmdResult
  rangeOrder : List (GoString × GoString) → List (GoString × GoString)
  lowerTable : Char → Char

/-- The fields of `Snapshot` this file writes, and the history of command calls. -/
structure Snapshot where
  DriveAges : Option (GoMap Int)
  DriveTemps : Option (GoMap Int)
  DiskHealth : Option (GoMap GoString)
  calls : List Invocation
  deriving DecidableEq, Repr

/-- A snapshot on which nothing has run yet. -/
def Snapshot.fresh : Snapshot := ⟨none, none, none, []⟩

/-- A snapshot whose three result maps are allocated and empty. -/
def Snapshot.allocated : Snapshot := ⟨some GoMap.make, some GoMap.make, some GoMap.make, []⟩

/-- The entries of a map field; a map that was never allocated has none. -/
def readings {V : Type} : Option (GoMap V) → List (GoString × V)
  | none => []
  | some m => m.entries

/-! ## `scanSmartctl` -/

/-- Go `l[i]`, panicking when `i` is out of range. -/
def index {α : Type} (l : List α) (i : Nat) : Except Panic α :=
  match l[i]? with
  | some a => Except.ok a
  | none => Except.error Panic.indexOutOfRange

/-- The assignment a `switch` case of `scanSmartctl` performs, with its operand:
`DriveTemps arg` is `s.DriveTemps[name], _ = strconv.Atoi(arg)`, likewise
`DriveAges`; `DiskHealth val` is `s.DiskHealth[name] = val`; `skip` is a line
no case acts on. -/
inductive Assign
  | DriveTemps (arg : GoString)
  | DriveAges (arg : GoString)
  | DiskHealth (val : GoString)
  | skip
  deriving DecidableEq, Repr

/-- The `switch` of `scanSmartctl` on one line: the first case whose condition
holds, and the operand it evaluates. -/
def scanCase (text : GoString) : Except Panic Assign :=
  let fields := Fields text
  if HasPrefix text "Current Drive Temperature:".toList then
    (index fields 3).map Assign.DriveTemps
  else if HasPrefix text "Accumulated power on time, hours:minutes".toList then
    (index fields 5).bind (fun f => (index (Split f ':') 0).map Assign.DriveAges)
  else if decide (fields.length > 1) && fields[0]? == some "Temperature:".toList then
    (index fields 1).map Assign.DriveTemps
  else if decide (fields.length > 3) &&
      fields.getD 0 [] ++ fields.getD 1 [] ++ fields.getD 2 [] == "PowerOnHours:".toList then
    (index fields 3).map (fun f => Assign.DriveAges (ReplaceAll f ',' []))
  else if Contains text "self-assessment ".toList || Contains text "SMART Health Status:".toList then
    match fields.getLast? with
    | some v => Except.ok (Assign.DiskHealth v)
    | none => Except.error Panic.indexOutOfRange
  else if decide (fields.length < 10) then
    Except.ok Assign.skip
  else
    (index fields 1).bind (fun f1 =>
      if HasPrefix f1 "Airflow_Temp".toList || HasPrefix f1 "Temperature_Cel".toList then
        (index fields 9).map Assign.DriveTemps
      else if HasPrefix f1 "Power_On_Hour".toList then
        (index fields 9).map Assign.DriveAges
      else Except.ok Assign.skip)

/-- Carry out the assignment of a case for the disk `name`. -/
def assign (s : Snapshot) (name : GoString) : Assign → Except Panic Snapshot
  | Assign.DriveTemps arg =>
    match s.DriveTemps with
    | none => Except.error Panic.nilMap
    | some m => Except.ok { s with DriveTemps := some (m.set name (Atoi arg).1) }
  | Assign.DriveAges arg =>
    match s.DriveAges with
    | none => Except.error Panic.nilMap
    | some m => Except.ok { s with DriveAges := some (m.set name (Atoi arg).1) }
  | Assign.DiskHealth val =>
    match s.DiskHealth with
    | none => Except.error Panic.nilMap
    | some m => Except.ok { s with DiskHealth := some (m.set name val) }
  | Assign.skip => Except.ok s

/-- One iteration of the loop of `scanSmartctl`. -/
def scanLine (s : Snapshot) (name text : GoString) : Except Panic Snapshot :=
  (scanCase text).bind (assign s name)

/-- The loop of `scanSmartctl` over the lines of the output. -/
def scanSmartctl (s : Snapshot) : List GoString → GoString → Except Panic Snapshot
  | [], _ => Except.ok s
  | text :: rest, name =>
    match scanLine s name text with
    | Except.error p => Except.error p
    | Except.ok s1 => scanSmartctl s1 rest name

/-! ## `getDiskData` -/

/-- The first case of the `switch` of `getDiskData`: virtual, RAID and boot devices. -/
def blocklisted (name : GoString) : Bool :=
  HasPrefix name "/dev/md".toList || HasPrefix name "/dev/ram".toList ||
  HasPrefix name "/dev/zram".toList || HasPrefix name "/dev/synoboot".toList ||
  HasPrefix name "/dev/nbd".toList || HasPrefix name "/dev/vda".toList

/-- The `switch` of `getDiskData`: `none` is the early `return nil`, otherwise the
arguments handed to `smartctl`. -/
def getDiskDataArgs (IsSynology : Bool) (name dev : GoString) : Option (List GoString) :=
  if blocklisted name then none
  else if IsSynology then some ["-d".toList, "sat".toList, "-AH".toList, name]
  else if dev != [] && Contains name ",".toList then some ["-d".toList, name, "-AH".toList, dev]
  else if dev != [] then some ["-d".toList, dev, "-AH".toList, name]
  else some ["-AH".toList, name]

/-- The part of `getDiskData` after the `switch`: prepare the command, parse its
output, return how it ended. -/
def runSmartctl (h : Host) (s : Snapshot) (name : GoString) (useSudo : Bool)
    (args : List GoString) : Except Panic (Snapshot × Option GoError) :=
  let s1 : Snapshot := { s with calls := s.calls ++ [⟨useSudo, "smartctl".toList, args⟩] }
  match h.command useSudo "smartctl".toList args with
  | CmdResult.notReady err => Except.ok (s1, some err)
  | CmdResult.ran stdout exit => (scanSmartctl s1 stdout name).map (fun s2 => (s2, exit))

def getDiskData (h : Host) (s : Snapshot) (name dev : GoString) (useSudo : Bool) :
    Except Panic (Snapshot × Option GoError) :=
  match getDiskDataArgs h.IsSynology name dev with
  | none => Except.ok (s, none)
  | some args => runSmartctl h s name useSudo args

/-! ## `getSmartDisks` -/

/-- The body of the loop of `getSmartDisks` on one line of `smartctl --scan-open`. -/
def scanOpenLine (disks : DiskSet) (text : GoString) : DiskSet :=
  let fields := Fields text
  if decide (fields.length < 3) || fields[0]? == some "#".toList then disks
  else if Contains (fields.getD 2 []) ",".toList then
    disks.set (fields.getD 2 []) (fields.getD 0 [])
  else disks.set (fields.getD 0 []) (fields.getD 2 [])

def getSmartDisks (h : Host) (s : Snapshot) (useSudo : Bool) (disks : DiskSet) :
    Snapshot × DiskSet × Option GoError :=
  let s1 : Snapshot :=
    { s with calls := s.calls ++ [⟨useSudo, "smartctl".toList, ["--scan-open".toList]⟩] }
  match h.command useSudo "smartctl".toList ["--scan-open".toList] with
  | CmdResult.notReady err => (s1, disks, some err)
  | CmdResult.ran stdout exit => (s1, stdout.foldl scanOpenLine disks, exit)

/-! ## `getParts` -/

def macDiskPrefix : GoString := "/dev/disk".toList

/-- The body of the loop of `getParts` on one partition: `none` is `continue`,
otherwise the key that is written with an empty hint. -/
def getPartsDevice (IsDarwin : Bool) (part : PartitionStat) : Option GoString :=
  if IsDarwin then
    if !HasPrefix part.Device macDiskPrefix || part.Opts.contains "nobrowse".toList then none
    else
      let stop := Index (TrimPrefix part.Device macDiskPrefix) "s".toList
      if stop > 0 then some (part.Device.take (stop.toNat + macDiskPrefix.length))
      else some part.Device
  else some part.Device

/-- The loop of `getParts`. -/
def getPartsLoop (IsDarwin : Bool) : DiskSet → List PartitionStat → DiskSet
  | disks, [] => disks
  | disks, part :: rest =>
    match getPartsDevice IsDarwin part with
    | none => getPartsLoop IsDarwin disks rest
    | some dev => getPartsLoop IsDarwin (disks.set dev []) rest

def getParts (h : Host) (disks : DiskSet) : DiskSet × Option GoError :=
  match h.partitionsErr with
  | some err => (disks, some (GoError.wrap "unable to get partitions: ".toList err))
  | none => (getPartsLoop h.IsDarwin disks h.partitions, none)

/-! ## `getBlocks` -/

/-- Worker of `pathJoinDev`: drop empty and `.` elements, let `..` remove the
element before it (`st` is the stack of kept elements, last one first). -/
def cleanRooted : List GoString → List GoString → List GoString
  | [], st => st.reverse
  | c :: cs, st =>
    if c = [] || c = ['.'] then cleanRooted cs st
    else if c = ['.', '.'] then cleanRooted cs (st.drop 1)
    else cleanRooted cs (c :: st)

/-- Go `path.Join("/dev", name)`: the cleaned rooted path. -/
def pathJoinDev (name : GoString) : GoString :=
  '/' :: "/".toList.intercalate (cleanRooted (Split name '/') ["dev".toList])

/-- The key `getBlocks` writes for a device. -/
def canonicalName (IsWindows : Bool) (name : GoString) : GoString :=
  if !IsWindows then pathJoinDev name else name

/-- The loop of `getBlocks`; `haveSet` is the map `have`.  Besides the disk set it
returns, per device, whether the iteration took the `continue` branch. -/
def getBlocksLoop (h : Host) : List GoString → DiskSet → List BlockDisk → DiskSet × List Bool
  | _, disks, [] => (disks, [])
  | haveSet, disks, dev :: rest =>
    if haveSet.contains dev.BusPath && ToLower h.lowerTable dev.BusPath != "unknown".toList then
      let r := getBlocksLoop h haveSet disks rest
      (r.1, true :: r.2)
    else
      let r := getBlocksLoop h (dev.BusPath :: haveSet)
        (disks.set (canonicalName h.IsWindows dev.Name) []) rest
      (r.1, false :: r.2)

def getBlocks (h : Host) (disks : DiskSet) : DiskSet × Option GoError :=
  match h.blockErr with
  | some err => (disks, some (GoError.wrap "unable to get block devices: ".toList err))
  | none => ((getBlocksLoop h [] disks h.blockDisks).1, none)

/-! ## `getDriveData` -/

/-- The discovery stages of `getDriveData`: the snapshot (with the scan call
recorded), the merged disk set and the errors met so far. -/
def discover (h : Host) (s : Snapshot) (useSudo : Bool) :
    Snapshot × DiskSet × List (Option GoError) :=
  let p := getParts h GoMap.make
  let errs1 : List (Option GoError) := match p.2 with
    | some err => [some err]
    | none => []
  if !h.IsDarwin then
    let q := getSmartDisks h s useSudo p.1
    let errs2 := match q.2.2 with
      | some err => errs1 ++ [some err]
      | none => errs1
    let b := getBlocks h q.2.1
    let errs3 := match b.2 with
      | some err => errs2 ++ [some err]
      | none => errs2
    (q.1, b.1, errs3)
  else (s, p.1, errs1)

/-- The loop of `getDriveData` over the disk set, in the order the map is ranged:
the result of every `getDiskData`, `nil` included, is appended to `errs`. -/
def diskLoop (h : Host) (useSudo : Bool) :
    Snapshot → List (Option GoError) → List (GoString × GoString) →
    Except Panic (Snapshot × List (Option GoError))
  | s, errs, [] => Except.ok (s, errs)
  | s, errs, (name, dev) :: rest =>
    match getDiskData h s name dev useSudo with
    | Except.error p => Except.error p
    | Except.ok (s1, e) => diskLoop h useSudo s1 (errs ++ [e]) rest

def getDriveData (h : Host) (s : Snapshot) (run useSudo : Bool) :
    Except Panic (Snapshot × List (Option GoError)) :=
  if !run then Except.ok (s, [])
  else
    let d := discover h s useSudo
    if d.2.1.len = 0 then Except.ok (d.1, d.2.2 ++ [some GoError.ErrNoDisks])
    else
      let s1 : Snapshot :=
        { d.1 with DriveAges := some GoMap.make, DriveTemps := some GoMap.make,
                   DiskHealth := some GoMap.make }
      diskLoop h useSudo s1 d.2.2 (h.rangeOrder d.2.1.entries)

/-! ## Notions of the specification used to state the claims -/

/-- The dedup rule of the Block Enumerator: an earlier device of the list reported the
same bus path, and that bus path is not "unknown" when compared in lower case. -/
def skipRule (tbl : Char → Char) (devs : List BlockDisk) (i : Nat) (d : BlockDisk) : Prop :=
  (∃ j d1, j < i ∧ devs[j]? = some d1 ∧ d1.BusPath = d.BusPath) ∧
    ToLower tbl d.BusPath ≠ "unknown".toList

/-- The token `unknown` written in any letter case. -/
def unknownAnyCase (s : GoString) : Bool :=
  match s with
  | [a, b, c, d, e, f, g] =>
    (a == 'u' || a == 'U') && (b == 'n' || b == 'N') && (c == 'k' || c == 'K') &&
    (d == 'n' || d == 'N') && (e == 'o' || e == 'O') && (f == 'w' || f == 'W') &&
    (g == 'n' || g == 'N')
  | _ => false

/-- The number a run of decimal digits denotes, `n` being the number denoted by the
digits before it. -/
def digitsValue : List Char → Nat → Nat
  | [], n => n
  | c :: cs, n => digitsValue cs (n * 10 + (c.toNat - '0'.toNat))

/-- The integer a decimal numeral denotes: an optional sign, then one or more digits;
any other text denotes nothing. -/
def numeralValue (s : GoString) : Option Int :=
  let ds : GoString := if s.head? == some '-' || s.head? == some '+' then s.drop 1 else s
  if !ds.isEmpty && ds.all isDigit then
    some (if s.head? == some '-' then -(digitsValue ds 0 : Int) else (digitsValue ds 0 : Int))
  else none

/-- The value of type `int` nearest to an integer. -/
def nearestInt (v : Int) : Int :=
  if v > (2 : Int) ^ 63 - 1 then (2 : Int) ^ 63 - 1
  else if v < -(2 : Int) ^ 63 then -(2 : Int) ^ 63 else v

/-! ## What one disk contributes to a collection cycle -/

/-- Whether the `switch` of `scanSmartctl` gets through a line without a panic. -/
def lineOk (text : GoString) : Bool :=
  match scanCase text with
  | Except.ok _ => true
  | Except.error _ => false

/-- Whether every line smartctl prints for a disk gets through the parser (a
blocklisted disk and a command that cannot be started print nothing). -/
def diskOk (h : Host) (useSudo : Bool) (name dev : GoString) : Bool :=
  match getDiskDataArgs h.IsSynology name dev with
  | none => true
  | some args =>
    match h.command useSudo "smartctl".toList args with
    | CmdResult.notReady _ => true
    | CmdResult.ran stdout _ => stdout.all lineOk

/-- The error of the invocation for a disk: `nil` for a blocklisted name, otherwise
the error of `readyCommand` or of `runCommand`. -/
def diskError (h : Host) (useSudo : Bool) (name dev : GoString) : Option GoError :=
  match getDiskDataArgs h.IsSynology name dev with
  | none => none
  | some args =>
    match h.command useSudo "smartctl".toList args with
    | CmdResult.notReady err => some err
    | CmdResult.ran _ exit => exit

/-- The invocation made for a disk: none for a blocklisted name, one otherwise. -/
def diskCalls (h : Host) (useSudo : Bool) (name dev : GoString) : List Invocation :=
  match getDiskDataArgs h.IsSynology name dev with
  | none => []
  | some args => [⟨useSudo, "smartctl".toList, args⟩]

/-- What the three result maps hold under one key: temperature, age, health. -/
abbrev Reading := Option Int × Option Int × Option GoString

def Snapshot.reading (s : Snapshot) (k : GoString) : Reading :=
  (s.DriveTemps.bind (fun m => m.get? k), s.DriveAges.bind (fun m => m.get? k),
   s.DiskHealth.bind (fun m => m.get? k))

/-- Whether the three result maps are allocated. -/
def Snapshot.mapsMade (s : Snapshot) : Bool :=
  s.DriveAges.isSome && s.DriveTemps.isSome && s.DiskHealth.isSome

/-- The reading of a disk after a case of the `switch` has been carried out for it. -/
def assignReading (r : Reading) : Assign → Reading
  | Assign.DriveTemps arg => (some (Atoi arg).1, r.2.1, r.2.2)
  | Assign.DriveAges arg => (r.1, some (Atoi arg).1, r.2.2)
  | Assign.DiskHealth val => (r.1, r.2.1, some val)
  | Assign.skip => r

/-- The reading of a disk after the lines of its output have been parsed. -/
def linesReading (r : Reading) : List GoString → Reading
  | [] => r
  | text :: rest =>
    match scanCase text with
    | Except.ok a => linesReading (assignReading r a) rest
    | Except.error _ => r

/-- The reading of a disk after `getDiskData` has run for it. -/
def diskReading (h : Host) (useSudo : Bool) (name dev : GoString) (r : Reading) : Reading :=
  match getDiskDataArgs h.IsSynology name dev with
  | none => r
  | some args =>
    match h.command useSudo "smartctl".toList args with
    | CmdResult.notReady _ => r
    | CmdResult.ran stdout _ => linesReading r stdout

/-- Two outcomes of a collection cycle agree on the result maps: both cycles
panicked, or both returned and every key has the same temperature, age and health
in both. -/
def sameReadings (o1 o2 : Except Panic (Snapshot × List (Option GoError))) : Prop :=
  match o1, o2 with
  | Except.ok r1, Except.ok r2 => ∀ k : GoString, r1.1.reading k = r2.1.reading k
  | Except.error _, Except.error _ => True
  | _, _ => False

/-! ## The rule table of the Diagnostic Parser, as the specification words it -/

/-- The one metric a rule of the table writes for the disk. -/
inductive Metric
  | temperature (n : Int)
  | age (n : Int)
  | health (v : GoString)
  deriving DecidableEq, Repr

/-- A field "parsed as an integer": its value when it is a numeral of type `int`. -/
def parseInteger (f : GoString) : Option Int :=
  if (Atoi f).2 = none then some (Atoi f).1 else none

/-- A rule of the table: when it applies to a line, and what it extracts from the
line.  The extraction is `none` when a field the rule refers to is missing or a
number does not parse, `some none` when the rule writes nothing. -/
structure Rule where
  applies : GoString → Bool
  extract : GoString → Option (Option Metric)

/-- Rule 1: the line starts with the temperature label; temperature = 4th field. -/
def rule1 : Rule where
  applies := fun text => HasPrefix text "Current Drive Temperature:".toList
  extract := fun text =>
    ((Fields text)[3]?.bind parseInteger).map (fun n => some (Metric.temperature n))

/-- Rule 2: the line starts with the power-on-time label; age = the integer before
the colon in the 6th field. -/
def rule2 : Rule where
  applies := fun text => HasPrefix text "Accumulated power on time, hours:minutes".toList
  extract := fun text =>
    ((Fields text)[5]?.bind (fun f => parseInteger (f.takeWhile (fun c => c != ':')))).map
      (fun n => some (Metric.age n))

/-- Rule 3: at least 2 fields and field 1 is `Temperature:`; temperature = field 2. -/
def rule3 : Rule where
  applies := fun text =>
    decide (2 ≤ (Fields text).length) && (Fields text)[0]? == some "Temperature:".toList
  extract := fun text =>
    ((Fields text)[1]?.bind parseInteger).map (fun n => some (Metric.temperature n))

/-- Rule 4: at least 4 fields and the first three concatenate to `PowerOnHours:`;
age = field 4 with the commas stripped. -/
def rule4 : Rule where
  applies := fun text =>
    decide (4 ≤ (Fields text).length) &&
      ((Fields text).take 3).flatten == "PowerOnHours:".toList
  extract := fun text =>
    ((Fields text)[3]?.bind (fun f => parseInteger (f.filter (fun c => c != ',')))).map
      (fun n => some (Metric.age n))

/-- Rule 5: the line contains a self-assessment or health-status marker;
health = last field. -/
def rule5 : Rule where
  applies := fun text =>
    decide ("self-assessment ".toList <:+: text) ||
      decide ("SMART Health Status:".toList <:+: text)
  extract := fun text => (Fields text).getLast?.map (fun v => some (Metric.health v))

/-- Rule 6: fewer than 10 fields; the line is ignored. -/
def rule6 : Rule where
  applies := fun text => decide ((Fields text).length < 10)
  extract := fun _ => some none

/-- Rule 7: field 2 starts with an airflow or temperature attribute name;
temperature = field 10. -/
def rule7 : Rule where
  applies := fun text =>
    match (Fields text)[1]? with
    | some f => HasPrefix f "Airflow_Temp".toList || HasPrefix f "Temperature_Cel".toList
    | none => false
  extract := fun text =>
    ((Fields text)[9]?.bind parseInteger).map (fun n => some (Metric.temperature n))

/-- Rule 8: field 2 starts with the power-on-hours attribute name; age = field 10. -/
def rule8 : Rule where
  applies := fun text =>
    match (Fields text)[1]? with
    | some f => HasPrefix f "Power_On_Hour".toList
    | none => false
  extract := fun text =>
    ((Fields text)[9]?.bind parseInteger).map (fun n => some (Metric.age n))

/-- The ordered rule table. -/
def ruleTable : List Rule := [rule1, rule2, rule3, rule4, rule5, rule6, rule7, rule8]

/-- First match wins: the extraction of the first rule that applies; a line no rule
applies to writes nothing. -/
def firstMatch : List Rule → GoString → Option (Option Metric)
  | [], _ => some none
  | r :: rs, text => if r.applies text then r.extract text else firstMatch rs text

/-- Write one metric under the name of the disk. -/
def writeMetric (s : Snapshot) (name : GoString) : Option Metric → Snapshot
  | none => s
  | some (Metric.temperature n) =>
    { s with DriveTemps := s.DriveTemps.map (fun m => m.set name n) }
  | some (Metric.age n) => { s with DriveAges := s.DriveAges.map (fun m => m.set name n) }
  | some (Metric.health v) => { s with DiskHealth := s.DiskHealth.map (fun m => m.set name v) }

/-- The metric a case of the `switch`, with its operand, stands for in the table. -/
def assignMetric : Assign → Option (Option Metric)
  | Assign.DriveTemps arg => (parseInteger arg).map (fun n => some (Metric.temperature n))
  | Assign.DriveAges arg => (parseInteger arg).map (fun n => some (Metric.age n))
  | Assign.DiskHealth val => some (some (Metric.health val))
  | Assign.skip => some none

/-! ## Sample hosts -/

/-- A Linux host with one SATA disk whose smartctl prints a temperature line. -/
def linuxHost : Host where
  IsDarwin := false
  IsSynology := false
  IsWindows := false
  partitions := [⟨"/dev/sda1".toList, ["rw".toList]⟩]
  partitionsErr := none
  blockDisks := [⟨"sda".toList, "pci-0000:00:1f.2-ata-1".toList⟩]
  blockErr := none
  command := fun _ _ args =>
    if args = ["--scan-open".toList] then
      CmdResult.ran ["/dev/sda -d sat # /dev/sda [SAT], ATA device".toList] none
    else CmdResult.ran ["Current Drive Temperature:     36 C".toList] none
  rangeOrder := fun l => l
  lowerTable := fun c => c

/-- The same host, running on a Synology NAS. -/
def synologyHost : Host := { linuxHost with IsSynology := true }

/-- A Linux host whose block inventory repeats a bus path (`sda`, `sdb`) and has two
devices that both report the bus path `Unknown` (`sdc`, `sdd`). -/
def multipathHost : Host :=
  { linuxHost with
    blockDisks := [⟨"sda".toList, "pci-0000:03:00.0-sas-1".toList⟩,
                   ⟨"sdb".toList, "pci-0000:03:00.0-sas-1".toList⟩,
                   ⟨"sdc".toList, "Unknown".toList⟩,
                   ⟨"sdd".toList, "Unknown".toList⟩] }

/-- A Linux host on which the invocation for `/dev/sda1` fails with exit status 4
after printing only the temperature label; the invocation for `/dev/sda` succeeds. -/
def crashHost : Host :=
  { linuxHost with
    command := fun _ _ args =>
      if args = ["--scan-open".toList] then
        CmdResult.ran ["/dev/sda -d sat # /dev/sda [SAT], ATA device".toList] none
      else if args = ["-AH".toList, "/dev/sda1".toList] then
        CmdResult.ran ["Current Drive Temperature:".toList]
          (some (GoError.external "exit status 4".toList))
      else CmdResult.ran ["Current Drive Temperature:     36 C".toList] none }

/-- A Darwin host with two slices of one disk. -/
def macHost : Host :=
  { linuxHost with
    IsDarwin := true
    partitions := [⟨"/dev/disk3s1".toList, ["apfs".toList]⟩, ⟨"/dev/disk3s5".toList, []⟩] }

/-- A Linux host whose only partition is a software RAID device and whose smartctl
binary cannot be started. -/
def raidHost : Host :=
  { linuxHost with
    partitions := [⟨"/dev/md0".toList, []⟩]
    blockDisks := []
    command := fun _ _ _ => CmdResult.notReady (GoError.external "smartctl missing".toList) }

/-- A Linux host on which the partition listing fails and smartctl cannot be
started; its block inventory reports one disk. -/
def failingHost : Host :=
  { linuxHost with
    partitionsErr := some (GoError.external "no mounts".toList)
    command := fun _ _ _ => CmdResult.notReady (GoError.external "smartctl missing".toList) }

/-- A host on which no discovery source reports anything. -/
def emptyHost : Host where
  IsDarwin := false
  IsSynology := false
  IsWindows := false
  partitions := []
  partitionsErr := none
  blockDisks := []
  blockErr := some (GoError.external "no block devices".toList)
  command := fun _ _ _ => CmdResult.notReady (GoError.external "smartctl missing".toList)
  rangeOrder := fun l => l
  lowerTable := fun c => c

/-! ## Theorems -/

/-! ### Maps -/

theorem lookup_setEntries_self {V : Type} (es : List (GoString × V)) (k : GoString) (v : V) :
    (setEntries es k v).lookup k = some v := by
  induction es with
  | nil => simp [setEntries, List.lookup]
  | cons e es ih =>
    obtain ⟨k1, v1⟩ := e
    by_cases hk : k1 = k
    · simp [setEntries, hk, List.lookup]
    · have hk2 : (k == k1) = false := by simpa using fun hh => hk hh.symm
      simp [setEntries, hk, List.lookup, hk2, ih]

theorem lookup_setEntries_ne {V : Type} (es : List (GoString × V)) (k k2 : GoString) (v : V)
    (hne : k2 ≠ k) : (setEntries es k v).lookup k2 = es.lookup k2 := by
  induction es with
  | nil =>
    have hk2 : (k2 == k) = false := by simpa using hne
    simp [setEntries, List.lookup, hk2]
  | cons e es ih =>
    obtain ⟨k1, v1⟩ := e
    by_cases hk : k1 = k
    · subst hk
      have hk2 : (k2 == k1) = false := by simpa using hne
      simp [setEntries, List.lookup, hk2]
    · simp only [setEntries, hk, if_false, List.lookup]
      rw [ih]

theorem setEntries_idem {V : Type} (es : List (GoString × V)) (k : GoString) (v : V) :
    setEntries (setEntries es k v) k v = setEntries es k v := by
  induction es with
  | nil => simp [setEntries]
  | cons e es ih =>
    obtain ⟨k1, v1⟩ := e
    by_cases hk : k1 = k
    · simp [setEntries, hk]
    · simp [setEntries, hk, ih]

theorem GoMap.get?_set_self {V : Type} (m : GoMap V) (k : GoString) (v : V) :
    (m.set k v).get? k = some v := lookup_setEntries_self m.entries k v

theorem GoMap.get?_set_ne {V : Type} (m : GoMap V) (k k2 : GoString) (v : V) (hne : k2 ≠ k) :
    (m.set k v).get? k2 = m.get? k2 := lookup_setEntries_ne m.entries k k2 v hne

theorem GoMap.set_idem {V : Type} (m : GoMap V) (k : GoString) (v : V) :
    (m.set k v).set k v = m.set k v := by
  simp [GoMap.set, setEntries_idem]

/-! ### The parser leaves the call history alone -/

theorem assign_calls (s s1 : Snapshot) (name : GoString) (a : Assign)
    (h : assign s name a = Except.ok s1) : s1.calls = s.calls := by
  cases a with
  | DriveTemps arg =>
    cases hm : s.DriveTemps with
    | none => simp [assign, hm] at h
    | some m => simp [assign, hm] at h; subst h; rfl
  | DriveAges arg =>
    cases hm : s.DriveAges with
    | none => simp [assign, hm] at h
    | some m => simp [assign, hm] at h; subst h; rfl
  | DiskHealth val =>
    cases hm : s.DiskHealth with
    | none => simp [assign, hm] at h
    | some m => simp [assign, hm] at h; subst h; rfl
  | skip => simp [assign] at h; subst h; rfl

theorem scanLine_calls (s s1 : Snapshot) (name text : GoString)
    (h : scanLine s name text = Except.ok s1) : s1.calls = s.calls := by
  unfold scanLine at h
  cases hc : scanCase text with
  | error p => simp [hc, Except.bind] at h
  | ok a =>
    simp only [hc, Except.bind] at h
    exact assign_calls s s1 name a h

theorem scanSmartctl_calls (lines : List GoString) (s s1 : Snapshot) (name : GoString)
    (h : scanSmartctl s lines name = Except.ok s1) : s1.calls = s.calls := by
  induction lines generalizing s with
  | nil => simp [scanSmartctl] at h; subst h; rfl
  | cons text rest ih =>
    unfold scanSmartctl at h
    cases hl : scanLine s name text with
    | error p => simp [hl] at h
    | ok s2 =>
      simp only [hl] at h
      rw [ih s2 h, scanLine_calls s s2 name text hl]

theorem runSmartctl_calls (h : Host) (s s1 : Snapshot) (name : GoString) (useSudo : Bool)
    (args : List GoString) (e : Option GoError)
    (hr : runSmartctl h s name useSudo args = Except.ok (s1, e)) :
    s1.calls = s.calls ++ [⟨useSudo, "smartctl".toList, args⟩] := by
  unfold runSmartctl at hr
  cases hc : h.command useSudo "smartctl".toList args with
  | notReady err =>
    rw [hc] at hr
    injection hr with hr
    injection hr with h1 h2
    subst h1
    rfl
  | ran stdout exit =>
    rw [hc] at hr
    cases hs : scanSmartctl
        { s with calls := s.calls ++ [⟨useSudo, "smartctl".toList, args⟩] } stdout name with
    | error p =>
      simp only [hs, Except.map] at hr
      cases hr
    | ok s2 =>
      simp only [hs, Except.map] at hr
      injection hr with hr
      injection hr with h1 h2
      subst h1
      exact scanSmartctl_calls stdout _ s2 name hs

/-! ### C1, C2: `getDiskData` -/

/-- C1: for a disk that is not blocklisted, `getDiskData` runs smartctl with the
arguments chosen by precedence: `-d sat -AH name` on Synology; else `-d name -AH hint`
when the hint is non-empty and the name has a comma; else `-d hint -AH name` when the
hint is non-empty; else `-AH name`.  Whenever the call returns, exactly that one
invocation has been added to the history. -/
theorem getDiskData_args (h : Host) (s : Snapshot) (name dev : GoString) (useSudo : Bool)
    (hname : blocklisted name = false) :
    getDiskData h s name dev useSudo =
      runSmartctl h s name useSudo
        (if h.IsSynology = true then ["-d".toList, "sat".toList, "-AH".toList, name]
         else if dev ≠ [] ∧ Contains name ",".toList = true then
           ["-d".toList, name, "-AH".toList, dev]
         else if dev ≠ [] then ["-d".toList, dev, "-AH".toList, name]
         else ["-AH".toList, name]) ∧
    ∀ s1 e, getDiskData h s name dev useSudo = Except.ok (s1, e) →
      s1.calls = s.calls ++ [⟨useSudo, "smartctl".toList,
        (if h.IsSynology = true then ["-d".toList, "sat".toList, "-AH".toList, name]
         else if dev ≠ [] ∧ Contains name ",".toList = true then
           ["-d".toList, name, "-AH".toList, dev]
         else if dev ≠ [] then ["-d".toList, dev, "-AH".toList, name]
         else ["-AH".toList, name])⟩] := by
  have key : getDiskData h s name dev useSudo =
      runSmartctl h s name useSudo
        (if h.IsSynology = true then ["-d".toList, "sat".toList, "-AH".toList, name]
         else if dev ≠ [] ∧ Contains name ",".toList = true then
           ["-d".toList, name, "-AH".toList, dev]
         else if dev ≠ [] then ["-d".toList, dev, "-AH".toList, name]
         else ["-AH".toList, name]) := by
    unfold getDiskData getDiskDataArgs
    rw [hname]
    cases h1 : h.IsSynology <;> by_cases h2 : dev = [] <;>
      cases h3 : Contains name ",".toList <;> simp_all
  refine ⟨key, ?_⟩
  intro s1 e hr
  rw [key] at hr
  exact runSmartctl_calls h s s1 name useSudo _ e hr

/-- Witness of C1: the disk `/dev/bus/0` found with hint `megaraid,4` on a Linux host. -/
theorem getDiskData_args_witness :
    blocklisted "megaraid,4".toList = false ∧
    getDiskData linuxHost Snapshot.allocated "megaraid,4".toList "/dev/bus/0".toList true =
      runSmartctl linuxHost Snapshot.allocated "megaraid,4".toList true
        ["-d".toList, "megaraid,4".toList, "-AH".toList, "/dev/bus/0".toList] :=
  ⟨by decide,
   (getDiskData_args linuxHost Snapshot.allocated "megaraid,4".toList "/dev/bus/0".toList true
     (by decide)).1⟩

/-- C2: a disk whose name starts with one of the blocklisted prefixes is skipped on
every platform and for every hint: `getDiskData` returns no error and leaves the
snapshot (the three result maps and the call history) as it was. -/
theorem getDiskData_blocklisted (h : Host) (s : Snapshot) (name dev : GoString) (useSudo : Bool)
    (hname : ∃ p ∈ ["/dev/md".toList, "/dev/ram".toList, "/dev/zram".toList,
      "/dev/synoboot".toList, "/dev/nbd".toList, "/dev/vda".toList], p <+: name) :
    getDiskData h s name dev useSudo = Except.ok (s, none) := by
  have hb : blocklisted name = true := by
    obtain ⟨p, hp, hpre⟩ := hname
    have hpre2 : p.isPrefixOf name = true := List.isPrefixOf_iff_prefix.mpr hpre
    simp only [List.mem_cons, List.mem_singleton, List.not_mem_nil, or_false] at hp
    unfold blocklisted HasPrefix
    rcases hp with rfl | rfl | rfl | rfl | rfl | rfl <;>
      simp only [hpre2, Bool.or_true, Bool.true_or]
  unfold getDiskData getDiskDataArgs
  rw [hb]
  rfl

/-- Witness of C2: `/dev/md0` with a hint, on a Synology host. -/
theorem getDiskData_blocklisted_witness :
    (∃ p ∈ ["/dev/md".toList, "/dev/ram".toList, "/dev/zram".toList,
      "/dev/synoboot".toList, "/dev/nbd".toList, "/dev/vda".toList], p <+: "/dev/md0".toList) ∧
    getDiskData synologyHost Snapshot.allocated "/dev/md0".toList "sat".toList true =
      Except.ok (Snapshot.allocated, none) :=
  ⟨⟨"/dev/md".toList, by decide, ['0'], rfl⟩,
   getDiskData_blocklisted synologyHost Snapshot.allocated "/dev/md0".toList "sat".toList true
     ⟨"/dev/md".toList, by decide, ['0'], rfl⟩⟩

/-! ### Searching for one character -/

theorem Index_go_nonneg_iff (c : Char) (s : GoString) (i : Nat) :
    0 ≤ Index.go [c] s i ↔ c ∈ s := by
  induction s generalizing i with
  | nil => simp [Index.go]
  | cons x xs ih =>
    by_cases hx : c = x
    · subst hx
      simp [Index.go]
    · have hx2 : ¬ x = c := fun hh => hx hh.symm
      simp [Index.go, hx, hx2, ih]

theorem Contains_singleton (s : GoString) (c : Char) : Contains s [c] = true ↔ c ∈ s := by
  simp [Contains, Index, Index_go_nonneg_iff]

theorem Contains_singleton_false (s : GoString) (c : Char) : Contains s [c] = false ↔ c ∉ s := by
  rw [← Contains_singleton s c]
  simp

theorem Index_go_first (c : Char) (pre post : GoString) (i : Nat) (hpre : c ∉ pre) :
    Index.go [c] (pre ++ c :: post) i = ((i + pre.length : Nat) : Int) := by
  induction pre generalizing i with
  | nil => simp [Index.go]
  | cons x xs ih =>
    have hx : ¬ c = x := fun hh => hpre (by simp [hh])
    have hxs : c ∉ xs := fun hh => hpre (by simp [hh])
    have hb : (c == x) = false := by simpa using hx
    show (if (c == x && [].isPrefixOf (xs ++ c :: post)) = true then (i : Int)
      else Index.go [c] (xs ++ c :: post) (i + 1)) = _
    rw [hb, ih (i + 1) hxs]
    simp only [Bool.false_and, Bool.false_eq_true, if_false, List.length_cons]
    congr 1
    omega

/-! ### C3: no disks -/

theorem discover_snapshot (h : Host) (s : Snapshot) (useSudo : Bool) :
    (discover h s useSudo).1 =
      { s with calls := s.calls ++
          (if h.IsDarwin = true then []
           else [⟨useSudo, "smartctl".toList, ["--scan-open".toList]⟩]) } := by
  unfold discover
  cases hd : h.IsDarwin with
  | true => simp
  | false =>
    simp only [Bool.not_false, if_true, Bool.false_eq_true, if_false]
    unfold getSmartDisks
    cases h.command useSudo "smartctl".toList ["--scan-open".toList] <;> rfl

/-- C3: when the merged disk set is empty after the discovery stages, `getDriveData`
returns, the last element of its error list is `ErrNoDisks`, the three result maps are
untouched (so a fresh snapshot has no readings), and the only command that has been
called is the scan probe (off Darwin): no disk was queried. -/
theorem getDriveData_noDisks (h : Host) (s : Snapshot) (useSudo : Bool)
    (hempty : (discover h s useSudo).2.1.len = 0) :
    ∃ s1 errs, getDriveData h s true useSudo = Except.ok (s1, errs) ∧
      errs.getLast? = some (some GoError.ErrNoDisks) ∧
      s1.DriveTemps = s.DriveTemps ∧ s1.DriveAges = s.DriveAges ∧
      s1.DiskHealth = s.DiskHealth ∧
      s1.calls = s.calls ++
        (if h.IsDarwin = true then []
         else [⟨useSudo, "smartctl".toList, ["--scan-open".toList]⟩]) ∧
      (s = Snapshot.fresh →
        readings s1.DriveTemps = [] ∧ readings s1.DriveAges = [] ∧
        readings s1.DiskHealth = []) := by
  refine ⟨(discover h s useSudo).1, (discover h s useSudo).2.2 ++ [some GoError.ErrNoDisks],
    ?_, ?_, ?_, ?_, ?_, ?_, ?_⟩
  · unfold getDriveData
    simp only [Bool.not_true, Bool.false_eq_true, if_false, hempty, if_true]
  · simp
  · rw [discover_snapshot]
  · rw [discover_snapshot]
  · rw [discover_snapshot]
  · rw [discover_snapshot]
  · intro hs
    subst hs
    rw [discover_snapshot]
    exact ⟨rfl, rfl, rfl⟩

/-- Witness of C3: a host whose partition table is empty, whose smartctl cannot be
started and whose block inventory fails. -/
theorem getDriveData_noDisks_witness :
    (discover emptyHost Snapshot.fresh false).2.1.len = 0 ∧
    ∃ s1 errs, getDriveData emptyHost Snapshot.fresh true false = Except.ok (s1, errs) ∧
      errs.getLast? = some (some GoError.ErrNoDisks) ∧
      s1.DriveTemps = Snapshot.fresh.DriveTemps ∧ s1.DriveAges = Snapshot.fresh.DriveAges ∧
      s1.DiskHealth = Snapshot.fresh.DiskHealth ∧
      s1.calls = Snapshot.fresh.calls ++
        (if emptyHost.IsDarwin = true then []
         else [⟨false, "smartctl".toList, ["--scan-open".toList]⟩]) ∧
      (Snapshot.fresh = Snapshot.fresh →
        readings s1.DriveTemps = [] ∧ readings s1.DriveAges = [] ∧
        readings s1.DiskHealth = []) :=
  ⟨by decide, getDriveData_noDisks emptyHost Snapshot.fresh false (by decide)⟩

/-! ### C4, C5: the scan probe -/

/-- C4: a scan line with at least 3 fields whose first field is not `#` updates the
disk set by insert-or-overwrite: key = third field and value = first field when the
third field contains a comma, key = first field and value = third field otherwise;
every other key keeps its hint. -/
theorem scanOpenLine_insert (disks : DiskSet) (text f0 f2 : GoString)
    (hlen : 3 ≤ (Fields text).length)
    (h0 : (Fields text)[0]? = some f0) (h2 : (Fields text)[2]? = some f2)
    (hhash : f0 ≠ "#".toList) :
    (',' ∈ f2 →
      scanOpenLine disks text = disks.set f2 f0 ∧
      (scanOpenLine disks text).get? f2 = some f0 ∧
      ∀ k, k ≠ f2 → (scanOpenLine disks text).get? k = disks.get? k) ∧
    (',' ∉ f2 →
      scanOpenLine disks text = disks.set f0 f2 ∧
      (scanOpenLine disks text).get? f0 = some f2 ∧
      ∀ k, k ≠ f0 → (scanOpenLine disks text).get? k = disks.get? k) := by
  have hl : ¬ (Fields text).length < 3 := by omega
  have hg0 : (Fields text).getD 0 [] = f0 := by simp [List.getD, h0]
  have hg2 : (Fields text).getD 2 [] = f2 := by simp [List.getD, h2]
  have hns : (some f0 == some "#".toList) = false := by simpa using hhash
  constructor
  · intro hc
    have hc2 : Contains f2 ",".toList = true := (Contains_singleton f2 ',').mpr hc
    have he : scanOpenLine disks text = disks.set f2 f0 := by
      unfold scanOpenLine
      simp only [hl, h0, hns, hg0, hg2, hc2, decide_False, Bool.or_self, Bool.false_eq_true,
        if_false, if_true]
    rw [he]
    exact ⟨rfl, GoMap.get?_set_self disks f2 f0, fun k hk => GoMap.get?_set_ne disks f2 k f0 hk⟩
  · intro hc
    have hc2 : Contains f2 ",".toList = false := (Contains_singleton_false f2 ',').mpr hc
    have he : scanOpenLine disks text = disks.set f0 f2 := by
      unfold scanOpenLine
      simp only [hl, h0, hns, hg0, hg2, hc2, decide_False, Bool.or_self, Bool.false_eq_true,
        if_false]
    rw [he]
    exact ⟨rfl, GoMap.get?_set_self disks f0 f2, fun k hk => GoMap.get?_set_ne disks f0 k f2 hk⟩

/-- Witness of C4: a RAID member reported by the scan with a compound type. -/
theorem scanOpenLine_insert_witness :
    3 ≤ (Fields "/dev/bus/0 -d megaraid,4 # /dev/bus/0 [megaraid_disk_04]".toList).length ∧
    scanOpenLine GoMap.make "/dev/bus/0 -d megaraid,4 # /dev/bus/0 [megaraid_disk_04]".toList =
      GoMap.set GoMap.make "megaraid,4".toList "/dev/bus/0".toList :=
  ⟨by decide,
   ((scanOpenLine_insert GoMap.make
      "/dev/bus/0 -d megaraid,4 # /dev/bus/0 [megaraid_disk_04]".toList
      "/dev/bus/0".toList "megaraid,4".toList
      (by decide) (by decide) (by decide) (by decide)).1 (by decide)).1⟩

/-- C5, as stated, fails: the line `#x a b` has a first field that begins with `#`,
yet processing it adds the key `#x` with hint `b` to an empty disk set. -/
theorem scanOpenLine_leading_hash_counterexample :
    (Fields "#x a b".toList)[0]? = some "#x".toList ∧
    "#x".toList.head? = some '#' ∧
    scanOpenLine GoMap.make "#x a b".toList = GoMap.set GoMap.make "#x".toList "b".toList ∧
    scanOpenLine GoMap.make "#x a b".toList ≠ GoMap.make := by
  decide

/-- C5 (amended): a scan line that has fewer than 3 fields, or whose first field is
exactly `#`, leaves the disk set unchanged. -/
theorem scanOpenLine_ignored (disks : DiskSet) (text : GoString)
    (h : (Fields text).length < 3 ∨ (Fields text)[0]? = some "#".toList) :
    scanOpenLine disks text = disks := by
  unfold scanOpenLine
  rcases h with h | h
  · simp only [h, decide_True, Bool.true_or, if_true]
  · simp only [h, beq_self_eq_true, Bool.or_true, if_true]

/-- Witness of C5 (amended): a device the scan could not open. -/
theorem scanOpenLine_ignored_witness :
    ((Fields "# /dev/sdb -d scsi".toList).length < 3 ∨
      (Fields "# /dev/sdb -d scsi".toList)[0]? = some "#".toList) ∧
    scanOpenLine (GoMap.set GoMap.make "/dev/sda".toList "sat".toList)
      "# /dev/sdb -d scsi".toList = GoMap.set GoMap.make "/dev/sda".toList "sat".toList :=
  ⟨Or.inr (by decide),
   scanOpenLine_ignored (GoMap.set GoMap.make "/dev/sda".toList "sat".toList)
     "# /dev/sdb -d scsi".toList (Or.inr (by decide))⟩

/-! ### C6: the block enumerator -/

theorem getBlocksLoop_length (h : Host) (devs : List BlockDisk) (haveSet : List GoString)
    (disks : DiskSet) : (getBlocksLoop h haveSet disks devs).2.length = devs.length := by
  induction devs generalizing haveSet disks with
  | nil => rfl
  | cons dev rest ih =>
    unfold getBlocksLoop
    split <;> simp [ih]

/-- An empty hint, once written, survives the rest of the loop. -/
theorem getBlocksLoop_keeps (h : Host) (devs : List BlockDisk) (haveSet : List GoString)
    (disks : DiskSet) (k : GoString) (hk : disks.get? k = some []) :
    (getBlocksLoop h haveSet disks devs).1.get? k = some [] := by
  induction devs generalizing haveSet disks with
  | nil => exact hk
  | cons dev rest ih =>
    unfold getBlocksLoop
    split
    · exact ih haveSet disks hk
    · apply ih
      by_cases hkk : k = canonicalName h.IsWindows dev.Name
      · rw [hkk]
        exact GoMap.get?_set_self _ _ _
      · rw [GoMap.get?_set_ne _ _ _ _ hkk]
        exact hk

/-- The `continue` branch is taken exactly for a bus path that is in `have` or was
reported by an earlier device, unless it is "unknown". -/
theorem getBlocksLoop_trace (h : Host) (devs : List BlockDisk) (haveSet : List GoString)
    (disks : DiskSet) (i : Nat) (d : BlockDisk) (hd : devs[i]? = some d) :
    (getBlocksLoop h haveSet disks devs).2[i]? = some true ↔
      (d.BusPath ∈ haveSet ∨ ∃ j d1, j < i ∧ devs[j]? = some d1 ∧ d1.BusPath = d.BusPath) ∧
        ToLower h.lowerTable d.BusPath ≠ "unknown".toList := by
  induction devs generalizing haveSet disks i with
  | nil => simp at hd
  | cons dev rest ih =>
    cases i with
    | zero =>
      simp only [List.getElem?_cons_zero, Option.some.injEq] at hd
      subst hd
      unfold getBlocksLoop
      split
      · rename_i hc
        simp only [Bool.and_eq_true, List.contains, List.elem_eq_mem, decide_eq_true_eq, bne_iff_ne, ne_eq] at hc
        simp only [List.getElem?_cons_zero, true_iff]
        exact ⟨Or.inl hc.1, hc.2⟩
      · rename_i hc
        simp only [Bool.and_eq_true, List.contains, List.elem_eq_mem, decide_eq_true_eq, bne_iff_ne, ne_eq] at hc
        simp only [List.getElem?_cons_zero, Option.some.injEq, Bool.false_eq_true, false_iff]
        rintro ⟨h1 | ⟨j, d1, hj, _⟩, h2⟩
        · exact hc ⟨h1, h2⟩
        · omega
    | succ n =>
      simp only [List.getElem?_cons_succ] at hd
      have hshift : ∀ hs : List GoString, (∀ p, p ∈ hs ↔ p ∈ haveSet ∨ p = dev.BusPath) →
          ((d.BusPath ∈ hs ∨ ∃ j d1, j < n ∧ rest[j]? = some d1 ∧ d1.BusPath = d.BusPath) ↔
           (d.BusPath ∈ haveSet ∨
             ∃ j d1, j < n + 1 ∧ (dev :: rest)[j]? = some d1 ∧ d1.BusPath = d.BusPath)) := by
        intro hs hmem
        constructor
        · rintro (h1 | ⟨j, d1, hj, hj2, hj3⟩)
          · rcases (hmem _).mp h1 with h1 | h1
            · exact Or.inl h1
            · exact Or.inr ⟨0, dev, by omega, by simp, h1.symm⟩
          · exact Or.inr ⟨j + 1, d1, by omega, by simpa using hj2, hj3⟩
        · rintro (h1 | ⟨j, d1, hj, hj2, hj3⟩)
          · exact Or.inl ((hmem _).mpr (Or.inl h1))
          · cases j with
            | zero =>
              simp only [List.getElem?_cons_zero, Option.some.injEq] at hj2
              subst hj2
              exact Or.inl ((hmem _).mpr (Or.inr hj3.symm))
            | succ m =>
              simp only [List.getElem?_cons_succ] at hj2
              exact Or.inr ⟨m, d1, by omega, hj2, hj3⟩
      unfold getBlocksLoop
      split
      · rename_i hc
        simp only [Bool.and_eq_true, List.contains, List.elem_eq_mem, decide_eq_true_eq, bne_iff_ne, ne_eq] at hc
        simp only [List.getElem?_cons_succ]
        rw [ih haveSet disks n hd, hshift haveSet]
        intro p
        constructor
        · exact fun hp => Or.inl hp
        · rintro (hp | hp)
          · exact hp
          · rw [hp]
            exact hc.1
      · simp only [List.getElem?_cons_succ]
        rw [ih (dev.BusPath :: haveSet) _ n hd, hshift (dev.BusPath :: haveSet)]
        intro p
        simp only [List.mem_cons]
        tauto

/-- A device whose iteration did not `continue` has its canonical name in the
resulting disk set, with an empty hint. -/
theorem getBlocksLoop_inserted (h : Host) (devs : List BlockDisk) (haveSet : List GoString)
    (disks : DiskSet) (i : Nat) (d : BlockDisk) (hd : devs[i]? = some d)
    (ht : (getBlocksLoop h haveSet disks devs).2[i]? = some false) :
    (getBlocksLoop h haveSet disks devs).1.get? (canonicalName h.IsWindows d.Name) = some [] := by
  induction devs generalizing haveSet disks i with
  | nil => simp at hd
  | cons dev rest ih =>
    cases i with
    | zero =>
      simp only [List.getElem?_cons_zero, Option.some.injEq] at hd
      subst hd
      unfold getBlocksLoop at ht ⊢
      split at ht
      · simp at ht
      · rename_i hc
        rw [if_neg hc]
        exact getBlocksLoop_keeps h rest _ _ _ (GoMap.get?_set_self _ _ _)
    | succ n =>
      simp only [List.getElem?_cons_succ] at hd
      unfold getBlocksLoop at ht ⊢
      split at ht
      · rename_i hc
        rw [if_pos hc]
        simp only [List.getElem?_cons_succ] at ht
        exact ih haveSet disks n hd ht
      · rename_i hc
        rw [if_neg hc]
        simp only [List.getElem?_cons_succ] at ht
        exact ih _ _ n hd ht

/-! ### C7: whole-disk collapsing on Darwin -/

theorem getPartsDevice_darwin_slice (N M : GoString) (opts : List GoString)
    (hN : N ≠ []) (hs : 's' ∉ N) (hopts : "nobrowse".toList ∉ opts) :
    getPartsDevice true ⟨"/dev/disk".toList ++ N ++ 's' :: M, opts⟩ =
      some ("/dev/disk".toList ++ N) := by
  have hpre : HasPrefix ("/dev/disk".toList ++ N ++ 's' :: M) macDiskPrefix = true := by
    unfold HasPrefix macDiskPrefix
    rw [List.isPrefixOf_iff_prefix, List.append_assoc]
    exact List.prefix_append _ _
  have hc : opts.contains "nobrowse".toList = false := by
    cases hcc : opts.contains "nobrowse".toList with
    | false => rfl
    | true =>
      simp only [List.contains, List.elem_eq_mem, decide_eq_true_eq] at hcc
      exact absurd hcc hopts
  have htrim : TrimPrefix ("/dev/disk".toList ++ N ++ 's' :: M) macDiskPrefix = N ++ 's' :: M := by
    unfold TrimPrefix
    rw [hpre, if_pos rfl, List.append_assoc]
    exact List.drop_left _ _
  have hidx : Index (N ++ 's' :: M) "s".toList = ((0 + N.length : Nat) : Int) :=
    Index_go_first 's' N M 0 hs
  have hpos : 0 < N.length := List.length_pos.mpr hN
  unfold getPartsDevice
  simp only [if_true, hpre, hc, Bool.not_true, Bool.or_self, Bool.false_eq_true, if_false,
    htrim, hidx]
  have hgt : ((0 + N.length : Nat) : Int) > 0 := by omega
  rw [if_pos hgt]
  congr 1
  have hlen : ((0 + N.length : Nat) : Int).toNat + macDiskPrefix.length =
      ("/dev/disk".toList ++ N).length := by
    simp only [Int.toNat_ofNat, List.length_append, macDiskPrefix]
    omega
  rw [hlen]
  exact List.take_left _ _

/-- C7: on Darwin, two browsable partitions `/dev/diskNsM1` and `/dev/diskNsM2` of the
same whole disk (`N` non-empty and without an `s`) are both normalised to the key
`/dev/diskN`, which `getParts` inserts with an empty hint. -/
theorem getParts_darwin_wholeDisk (h : Host) (disks : DiskSet) (N M1 M2 : GoString)
    (o1 o2 : List GoString)
    (hdarwin : h.IsDarwin = true) (herr : h.partitionsErr = none)
    (hparts : h.partitions = [⟨"/dev/disk".toList ++ N ++ 's' :: M1, o1⟩,
                              ⟨"/dev/disk".toList ++ N ++ 's' :: M2, o2⟩])
    (hN : N ≠ []) (hs : 's' ∉ N)
    (ho1 : "nobrowse".toList ∉ o1) (ho2 : "nobrowse".toList ∉ o2) :
    getPartsDevice h.IsDarwin ⟨"/dev/disk".toList ++ N ++ 's' :: M1, o1⟩ =
      some ("/dev/disk".toList ++ N) ∧
    getPartsDevice h.IsDarwin ⟨"/dev/disk".toList ++ N ++ 's' :: M2, o2⟩ =
      some ("/dev/disk".toList ++ N) ∧
    getParts h disks = (disks.set ("/dev/disk".toList ++ N) [], none) ∧
    (getParts h disks).1.get? ("/dev/disk".toList ++ N) = some [] := by
  have h1 := getPartsDevice_darwin_slice N M1 o1 hN hs ho1
  have h2 := getPartsDevice_darwin_slice N M2 o2 hN hs ho2
  have hg : getParts h disks = (disks.set ("/dev/disk".toList ++ N) [], none) := by
    unfold getParts
    rw [herr, hparts, hdarwin]
    simp only [getPartsLoop, h1, h2, GoMap.set_idem]
  rw [hdarwin]
  refine ⟨h1, h2, hg, ?_⟩
  rw [hg]
  exact GoMap.get?_set_self _ _ _

/-- Witness of C7: `/dev/disk3s1` and `/dev/disk3s5` both give `/dev/disk3`. -/
theorem getParts_darwin_wholeDisk_witness :
    getParts macHost GoMap.make = (GoMap.set GoMap.make "/dev/disk3".toList [], none) :=
  (getParts_darwin_wholeDisk macHost GoMap.make "3".toList "1".toList "5".toList
    ["apfs".toList] [] rfl rfl rfl (by decide) (by decide) (by decide) (by decide)).2.2.1

/-! ### `Atoi` reads back what `Itoa` writes -/

theorem digit_char (d : Nat) (hd : d < 10) :
    isDigit (Char.ofNat ('0'.toNat + d)) = true ∧
    (Char.ofNat ('0'.toNat + d)).toNat - '0'.toNat = d := by
  interval_cases d <;> decide

theorem isDigit_not_sign (c : Char) (hc : isDigit c = true) : c ≠ '-' ∧ c ≠ '+' := by
  constructor <;> (intro hh; subst hh; revert hc; decide)

/-- Parsing the digits written for `n` brings the accumulator from 0 to `n`. -/
theorem parseUint_natDigits_go (fuel n : Nat) (acc : List Char) (hfuel : n < fuel)
    (hn : n < 2 ^ 64) :
    parseUint (natDigits.go fuel n acc) 0 = parseUint acc n := by
  induction fuel generalizing n acc with
  | zero => omega
  | succ fuel ih =>
    obtain ⟨hd1, hd2⟩ := digit_char (n % 10) (Nat.mod_lt n (by norm_num))
    have hstep : ∀ a : Nat, a * 10 + n % 10 = n →
        parseUint (Char.ofNat ('0'.toNat + n % 10) :: acc) a = parseUint acc n := by
      intro a ha
      have hle : ¬ n > 2 ^ 64 - 1 := by omega
      simp only [parseUint, hd1, if_true, hd2, ha, hle, if_false]
    unfold natDigits.go
    by_cases hq : n / 10 = 0
    · simp only [hq, if_true]
      exact hstep 0 (by omega)
    · simp only [hq, if_false]
      rw [ih (n / 10) _ (by omega) (by omega)]
      exact hstep (n / 10) (by omega)

theorem parseUint_natDigits (n : Nat) (hn : n < 2 ^ 64) :
    parseUint (natDigits n) 0 = (n, none) := by
  unfold natDigits
  rw [parseUint_natDigits_go (n + 1) n [] (by omega) hn]
  rfl

theorem natDigits_go_head (fuel n : Nat) (acc : List Char)
    (hacc : ∃ c cs, acc = c :: cs ∧ isDigit c = true) :
    ∃ c cs, natDigits.go fuel n acc = c :: cs ∧ isDigit c = true := by
  induction fuel generalizing n acc with
  | zero => exact hacc
  | succ fuel ih =>
    unfold natDigits.go
    have hd := (digit_char (n % 10) (Nat.mod_lt n (by norm_num))).1
    by_cases hq : n / 10 = 0
    · simp only [hq, if_true]
      exact ⟨_, _, rfl, hd⟩
    · simp only [hq, if_false]
      exact ih _ _ ⟨_, _, rfl, hd⟩

theorem natDigits_head (n : Nat) : ∃ c cs, natDigits n = c :: cs ∧ isDigit c = true := by
  unfold natDigits natDigits.go
  have hd := (digit_char (n % 10) (Nat.mod_lt n (by norm_num))).1
  by_cases hq : n / 10 = 0
  · simp only [hq, if_true]
    exact ⟨_, _, rfl, hd⟩
  · simp only [hq, if_false]
    exact natDigits_go_head _ _ _ ⟨_, _, rfl, hd⟩

/-- Go `strconv.Atoi(strconv.Itoa(n))` is `n, nil` for every `n` of type `int`. -/
theorem Atoi_Itoa (n : Int) (hlo : -(2 : Int) ^ 63 ≤ n) (hhi : n < (2 : Int) ^ 63) :
    Atoi (Itoa n) = (n, none) := by
  obtain ⟨c, cs, hcs, hc⟩ := natDigits_head n.natAbs
  obtain ⟨hc1, hc2⟩ := isDigit_not_sign c hc
  have hp := parseUint_natDigits n.natAbs (by omega)
  by_cases hneg : n < 0
  · have hI : Itoa n = '-' :: natDigits n.natAbs := by simp [Itoa, hneg]
    have h63 : ¬ n.natAbs > 2 ^ 63 := by omega
    have hne : (natDigits n.natAbs).isEmpty = false := by rw [hcs]; rfl
    rw [hI]
    unfold Atoi Atoi.signed
    simp only [List.head?_cons, beq_self_eq_true, Bool.true_or, if_true, List.drop_succ_cons,
      List.drop_zero, hp, hne, Bool.false_eq_true, if_false, Bool.not_true,
      Bool.false_and, Bool.true_and, decide_eq_true_eq, h63, Prod.mk.injEq, and_true]
    omega
  · have hI : Itoa n = natDigits n.natAbs := by simp [Itoa, hneg]
    have h63 : ¬ n.natAbs ≥ 2 ^ 63 := by omega
    have hb1 : (some c == some '-') = false := by simpa using hc1
    have hb2 : (some c == some '+') = false := by simpa using hc2
    rw [hI]
    unfold Atoi Atoi.signed
    rw [hcs] at hp ⊢
    simp only [List.head?_cons, hb1, hb2, Bool.or_self, Bool.false_eq_true, if_false, hp,
      List.isEmpty_cons, Bool.not_false, Bool.true_and, decide_eq_true_eq, h63,
      Bool.false_and, Prod.mk.injEq, and_true]
    omega

/-! ### C8: `Current Drive Temperature:` -/

theorem index_eq_ok {α : Type} (l : List α) (i : Nat) (a : α) (h : l[i]? = some a) :
    index l i = Except.ok a := by
  unfold index
  rw [h]

theorem HasPrefix_intro (s pre : GoString) (h : pre <+: s) : HasPrefix s pre = true :=
  List.isPrefixOf_iff_prefix.mpr h

/-- C8: a line that starts with `Current Drive Temperature:` and whose 4th field is the
decimal rendering of the `int` value `n` sets the temperature of the disk to `n`; the
age and health maps are not written. -/
theorem scanLine_currentDriveTemperature (ages : Option (GoMap Int)) (temps : GoMap Int)
    (health : Option (GoMap GoString)) (calls : List Invocation) (name text : GoString) (n : Int)
    (hpre : "Current Drive Temperature:".toList <+: text)
    (hfield : (Fields text)[3]? = some (Itoa n))
    (hlo : -(2 : Int) ^ 63 ≤ n) (hhi : n < (2 : Int) ^ 63) :
    scanLine ⟨ages, some temps, health, calls⟩ name text =
      Except.ok ⟨ages, some (temps.set name n), health, calls⟩ ∧
    (temps.set name n).get? name = some n := by
  refine ⟨?_, GoMap.get?_set_self temps name n⟩
  have hc : scanCase text = Except.ok (Assign.DriveTemps (Itoa n)) := by
    unfold scanCase
    simp only [HasPrefix_intro text _ hpre, if_true, index_eq_ok _ 3 _ hfield, Except.map]
  unfold scanLine
  rw [hc]
  simp only [Except.bind, assign, Atoi_Itoa n hlo hhi]

/-- Witness of C8: the example line of the specification. -/
theorem scanLine_currentDriveTemperature_witness :
    scanLine Snapshot.allocated "/dev/sda".toList "Current Drive Temperature: 36 Celsius".toList =
      Except.ok ⟨some GoMap.make, some (GoMap.set GoMap.make "/dev/sda".toList 36),
        some GoMap.make, []⟩ :=
  (scanLine_currentDriveTemperature (some GoMap.make) GoMap.make (some GoMap.make) []
    "/dev/sda".toList "Current Drive Temperature: 36 Celsius".toList 36
    ⟨" 36 Celsius".toList, rfl⟩ (by decide) (by decide) (by decide)).1

/-! ### C9: `Temperature_Cel` attribute rows -/

/-- A line that starts with `Current Drive Temperature:` has `Drive` as second field. -/
theorem Fields_currentDrive (text : GoString)
    (h : HasPrefix text "Current Drive Temperature:".toList = true) :
    (Fields text)[1]? = some "Drive".toList := by
  obtain ⟨r, rfl⟩ := List.isPrefixOf_iff_prefix.mp h
  simp [Fields, Fields.go, isSpace]

/-- A line that starts with `Accumulated power on time, hours:minutes` has `power`
as second field. -/
theorem Fields_accumulated (text : GoString)
    (h : HasPrefix text "Accumulated power on time, hours:minutes".toList = true) :
    (Fields text)[1]? = some "power".toList := by
  obtain ⟨r, rfl⟩ := List.isPrefixOf_iff_prefix.mp h
  simp [Fields, Fields.go, isSpace]

/-- C9, as stated, fails: the line below has 10 fields and `Temperature_Celsius` as
field 2, but its first field is `Temperature:`, so the earlier rule reads field 2 as
the number and the temperature becomes 0 instead of 40, the value of field 10. -/
theorem scanLine_temperatureCel_counterexample :
    10 ≤ (Fields
      "Temperature: Temperature_Celsius 0x0022 100 100 000 Old_age Always - 40".toList).length ∧
    (Fields
      "Temperature: Temperature_Celsius 0x0022 100 100 000 Old_age Always - 40".toList)[1]? =
        some "Temperature_Celsius".toList ∧
    HasPrefix "Temperature_Celsius".toList "Temperature_Cel".toList = true ∧
    (Fields
      "Temperature: Temperature_Celsius 0x0022 100 100 000 Old_age Always - 40".toList)[9]? =
        some (Itoa 40) ∧
    Atoi (Itoa 40) = (40, none) ∧
    scanLine Snapshot.allocated "/dev/sda".toList
      "Temperature: Temperature_Celsius 0x0022 100 100 000 Old_age Always - 40".toList =
        Except.ok ⟨some GoMap.make, some (GoMap.set GoMap.make "/dev/sda".toList 0),
          some GoMap.make, []⟩ ∧
    (GoMap.set GoMap.make "/dev/sda".toList (0 : Int)).get? "/dev/sda".toList ≠ some 40 := by
  decide

/-- C9 (amended): a line with at least 10 fields whose field 2 starts with
`Temperature_Cel`, whose first field is not `Temperature:` and which contains neither
`self-assessment ` nor `SMART Health Status:`, sets the temperature of the disk to the
integer `Atoi` reads from field 10, which is `n` when field 10 is the decimal
rendering of the `int` value `n`. -/
theorem scanLine_temperatureCel (ages : Option (GoMap Int)) (temps : GoMap Int)
    (health : Option (GoMap GoString)) (calls : List Invocation)
    (name text f1 f9 : GoString)
    (hlen : 10 ≤ (Fields text).length)
    (h1 : (Fields text)[1]? = some f1) (hcel : "Temperature_Cel".toList <+: f1)
    (h9 : (Fields text)[9]? = some f9)
    (hrule3 : (Fields text)[0]? ≠ some "Temperature:".toList)
    (hrule5a : Contains text "self-assessment ".toList = false)
    (hrule5b : Contains text "SMART Health Status:".toList = false) :
    scanLine ⟨ages, some temps, health, calls⟩ name text =
      Except.ok ⟨ages, some (temps.set name (Atoi f9).1), health, calls⟩ ∧
    (temps.set name (Atoi f9).1).get? name = some (Atoi f9).1 ∧
    ∀ n : Int, -(2 : Int) ^ 63 ≤ n → n < (2 : Int) ^ 63 → f9 = Itoa n → (Atoi f9).1 = n := by
  refine ⟨?_, GoMap.get?_set_self temps name _, ?_⟩
  · have hf1len : 15 ≤ f1.length := by
      obtain ⟨r, rfl⟩ := hcel
      simp
    have hr1 : HasPrefix text "Current Drive Temperature:".toList = false := by
      cases hh : HasPrefix text "Current Drive Temperature:".toList with
      | false => rfl
      | true =>
        have h2 := Fields_currentDrive text hh
        rw [h1] at h2
        injection h2 with h2
        rw [h2] at hf1len
        simp at hf1len
    have hr2 : HasPrefix text "Accumulated power on time, hours:minutes".toList = false := by
      cases hh : HasPrefix text "Accumulated power on time, hours:minutes".toList with
      | false => rfl
      | true =>
        have h2 := Fields_accumulated text hh
        rw [h1] at h2
        injection h2 with h2
        rw [h2] at hf1len
        simp at hf1len
    have hr3 : (decide ((Fields text).length > 1) &&
        (Fields text)[0]? == some "Temperature:".toList) = false := by
      have : ((Fields text)[0]? == some "Temperature:".toList) = false := by
        simpa using hrule3
      rw [this, Bool.and_false]
    have hg1 : (Fields text).getD 1 [] = f1 := by simp [List.getD, h1]
    have hr4 : (decide ((Fields text).length > 3) &&
        (Fields text).getD 0 [] ++ (Fields text).getD 1 [] ++ (Fields text).getD 2 [] ==
          "PowerOnHours:".toList) = false := by
      have : ((Fields text).getD 0 [] ++ (Fields text).getD 1 [] ++ (Fields text).getD 2 [] ==
          "PowerOnHours:".toList) = false := by
        rw [hg1, beq_eq_false_iff_ne]
        intro hh
        have hl := congrArg List.length hh
        simp only [List.length_append] at hl
        have : "PowerOnHours:".toList.length = 13 := rfl
        omega
      rw [this, Bool.and_false]
    have hr6 : decide ((Fields text).length < 10) = false := by
      simpa using hlen
    have hp : HasPrefix f1 "Temperature_Cel".toList = true := HasPrefix_intro f1 _ hcel
    have hc : scanCase text = Except.ok (Assign.DriveTemps f9) := by
      unfold scanCase
      simp only [hr1, hr2, hr3, hr4, hrule5a, hrule5b, hr6, Bool.or_self, Bool.false_eq_true,
        if_false, index_eq_ok _ 1 _ h1, index_eq_ok _ 9 _ h9, Except.bind, hp, Bool.or_true,
        if_true, Except.map]
    unfold scanLine
    rw [hc]
    simp only [Except.bind, assign]
  · intro n hlo hhi hf
    rw [hf, Atoi_Itoa n hlo hhi]

/-- Witness of C9 (amended): an attribute row as smartctl prints it. -/
theorem scanLine_temperatureCel_witness :
    scanLine Snapshot.allocated "/dev/sda".toList
      "194 Temperature_Celsius 0x0022 119 097 000 Old_age Always - 28".toList =
        Except.ok ⟨some GoMap.make,
          some (GoMap.set GoMap.make "/dev/sda".toList (Atoi "28".toList).1),
          some GoMap.make, []⟩ :=
  (scanLine_temperatureCel (some GoMap.make) GoMap.make (some GoMap.make) []
    "/dev/sda".toList "194 Temperature_Celsius 0x0022 119 097 000 Old_age Always - 28".toList
    "Temperature_Celsius".toList "28".toList
    (by decide) (by decide) ⟨"sius".toList, rfl⟩ (by decide) (by decide) (by decide)
    (by decide)).1

/-! ### C10: operands that are not numbers -/

theorem Atoi_signed_error_value (neg : Bool) (body : GoString) (e : NumError)
    (h : (Atoi.signed neg body).2 = some e) :
    (e = NumError.ErrSyntax → (Atoi.signed neg body).1 = 0) ∧
    (e = NumError.ErrRange →
      (Atoi.signed neg body).1 = (2 : Int) ^ 63 - 1 ∨
      (Atoi.signed neg body).1 = -(2 : Int) ^ 63) := by
  unfold Atoi.signed at h ⊢
  generalize parseUint body 0 = r at h ⊢
  obtain ⟨un, err⟩ := r
  by_cases hb : body.isEmpty = true
  · simp only [hb, if_true] at h ⊢
    simp only [Option.some.injEq] at h
    subst h
    simp
  · simp only [hb, if_false] at h ⊢
    rcases err with _ | _ | _
    · dsimp only at h ⊢
      split_ifs at h ⊢ <;> simp_all <;> (subst h; simp)
    · dsimp only at h ⊢
      injection h with h
      subst h
      simp
    · dsimp only at h ⊢
      split_ifs at h ⊢ <;> simp_all <;> (subst h; simp)

/-- What `Atoi` returns beside an error: 0 for a syntax error, a bound of `int` for a
range error. -/
theorem Atoi_error_value (s : GoString) (e : NumError) (h : (Atoi s).2 = some e) :
    (e = NumError.ErrSyntax → (Atoi s).1 = 0) ∧
    (e = NumError.ErrRange → (Atoi s).1 = (2 : Int) ^ 63 - 1 ∨ (Atoi s).1 = -(2 : Int) ^ 63) :=
  Atoi_signed_error_value _ _ e h

/-- C10, as stated, fails: `Temperature: n/a` matches a temperature rule, its operand
`n/a` does not parse, the disk has no temperature before the line, and after the
line it has the temperature 0. -/
theorem scanLine_parse_failure_counterexample :
    scanCase "Temperature: n/a".toList = Except.ok (Assign.DriveTemps "n/a".toList) ∧
    Atoi "n/a".toList = (0, some NumError.ErrSyntax) ∧
    Snapshot.allocated.DriveTemps = some GoMap.make ∧
    (GoMap.make : GoMap Int).get? "/dev/sda".toList = none ∧
    scanLine Snapshot.allocated "/dev/sda".toList "Temperature: n/a".toList =
      Except.ok ⟨some GoMap.make, some (GoMap.set GoMap.make "/dev/sda".toList 0),
        some GoMap.make, []⟩ ∧
    (GoMap.set GoMap.make "/dev/sda".toList (0 : Int)).get? "/dev/sda".toList = some 0 := by
  decide

/-! ### C11: lines that hold only a label -/

/-- C11: the code at the failing inputs.  A line that consists only of
`Current Drive Temperature:` has 3 fields and the first case reads `fields[3]`; a
line that consists only of `Accumulated power on time, hours:minutes` has 5 fields
and the second case reads `fields[5]`: both accesses are out of range and the
parser panics instead of yielding a reading. -/
theorem scanLine_bare_label_panics :
    (Fields "Current Drive Temperature:".toList).length = 3 ∧
    scanLine Snapshot.allocated "/dev/sda".toList "Current Drive Temperature:".toList =
      Except.error Panic.indexOutOfRange ∧
    (Fields "Accumulated power on time, hours:minutes".toList).length = 5 ∧
    scanLine Snapshot.allocated "/dev/sda".toList
      "Accumulated power on time, hours:minutes".toList = Except.error Panic.indexOutOfRange ∧
    scanSmartctl Snapshot.allocated
      ["SMART Health Status: OK".toList, "Current Drive Temperature:".toList]
      "/dev/sda".toList = Except.error Panic.indexOutOfRange := by
  decide

/-! ### C12: the block inventory on Darwin -/

/-- C12, as stated, fails: on the Darwin host `macHost` the block inventory is
available and the enumerator would keep its device `sda`, but `getDriveData` does
not run the enumerator there, and `/dev/sda` is not a key of the merged disk set. -/
theorem discover_darwin_blocks_counterexample :
    macHost.IsDarwin = true ∧ macHost.blockErr = none ∧
    macHost.blockDisks[0]? = some ⟨"sda".toList, "pci-0000:00:1f.2-ata-1".toList⟩ ∧
    (getBlocksLoop macHost [] (getParts macHost GoMap.make).1 macHost.blockDisks).2[0]? =
      some false ∧
    canonicalName macHost.IsWindows "sda".toList = "/dev/sda".toList ∧
    (discover macHost Snapshot.fresh false).2.1 =
      GoMap.set GoMap.make "/dev/disk3".toList [] ∧
    (discover macHost Snapshot.fresh false).2.1.get? "/dev/sda".toList = none := by
  decide

/-! ### C13: what the error list holds -/

/-- C13: the code at the failing input.  On `linuxHost` no discovery stage fails and
the invocations for its two disks both succeed, yet the returned list is not empty:
it holds one `nil` entry per disk.  On `raidHost` the only disk is the blocklisted
`/dev/md0`, and it adds a `nil` entry after the error of the scan probe. -/
theorem getDriveData_nil_entries :
    linuxHost.partitionsErr = none ∧ linuxHost.blockErr = none ∧
    (discover linuxHost Snapshot.fresh false).2.2 = [] ∧
    (discover linuxHost Snapshot.fresh false).2.1.len = 2 ∧
    Except.map Prod.snd (getDriveData linuxHost Snapshot.fresh true false) =
      Except.ok [none, none] ∧
    (discover raidHost Snapshot.fresh false).2.1 = GoMap.set GoMap.make "/dev/md0".toList [] ∧
    Except.map Prod.snd (getDriveData raidHost Snapshot.fresh true false) =
      Except.ok [some (GoError.external "smartctl missing".toList), none] := by
  decide

/-! ### C16: hints after the block enumerator -/

/-- A key that is not the canonical name of a kept device keeps its hint. -/
theorem getBlocksLoop_frame (h : Host) (devs : List BlockDisk) (haveSet : List GoString)
    (disks : DiskSet) (k : GoString)
    (hk : ∀ (i : Nat) (d : BlockDisk), devs[i]? = some d → (getBlocksLoop h haveSet disks devs).2[i]? = some false →
      canonicalName h.IsWindows d.Name ≠ k) :
    (getBlocksLoop h haveSet disks devs).1.get? k = disks.get? k := by
  induction devs generalizing haveSet disks with
  | nil => rfl
  | cons dev rest ih =>
    unfold getBlocksLoop at hk ⊢
    split
    · rename_i hc
      rw [if_pos hc] at hk
      apply ih
      intro i d hd ht
      exact hk (i + 1) d (by simpa using hd) (by simpa using ht)
    · rename_i hc
      rw [if_neg hc] at hk
      have h0 : canonicalName h.IsWindows dev.Name ≠ k := hk 0 dev (by simp) (by simp)
      have hrest := ih (dev.BusPath :: haveSet)
        (disks.set (canonicalName h.IsWindows dev.Name) []) (by
          intro i d hd ht
          exact hk (i + 1) d (by simpa using hd) (by simpa using ht))
      rw [hrest]
      exact GoMap.get?_set_ne _ _ _ _ (fun hh => h0 hh.symm)

/-- C16: after `getBlocks` (block inventory available) the canonical name of every
device the loop kept maps to the empty hint, whatever hint the disk set held for it
before, and every key that is not the canonical name of a kept device has the hint
it had before. -/
theorem getBlocks_hints (h : Host) (disks : DiskSet) (k : GoString) (herr : h.blockErr = none) :
    (∀ (i : Nat) (d : BlockDisk), h.blockDisks[i]? = some d →
      (getBlocksLoop h [] disks h.blockDisks).2[i]? = some false →
      (getBlocks h disks).1.get? (canonicalName h.IsWindows d.Name) = some []) ∧
    ((∀ (i : Nat) (d : BlockDisk), h.blockDisks[i]? = some d →
      (getBlocksLoop h [] disks h.blockDisks).2[i]? = some false →
      canonicalName h.IsWindows d.Name ≠ k) →
      (getBlocks h disks).1.get? k = disks.get? k) := by
  have hres : getBlocks h disks = ((getBlocksLoop h [] disks h.blockDisks).1, none) := by
    unfold getBlocks
    rw [herr]
  rw [hres]
  exact ⟨fun i d hd ht => getBlocksLoop_inserted h h.blockDisks [] disks i d hd ht,
    fun hk => getBlocksLoop_frame h h.blockDisks [] disks k hk⟩

/-- Witness of C16: the probe gave `/dev/sda` the hint `sat` and `/dev/bus/0` the
hint `megaraid,4`; after `getBlocks` on `linuxHost` the first hint is empty and the
second one is still there. -/
theorem getBlocks_hints_witness :
    linuxHost.blockErr = none ∧
    (getBlocks linuxHost (GoMap.set (GoMap.set GoMap.make "/dev/sda".toList "sat".toList)
      "/dev/bus/0".toList "megaraid,4".toList)).1.get? "/dev/sda".toList = some [] ∧
    (getBlocks linuxHost (GoMap.set (GoMap.set GoMap.make "/dev/sda".toList "sat".toList)
      "/dev/bus/0".toList "megaraid,4".toList)).1.get? "/dev/bus/0".toList =
        some "megaraid,4".toList :=
  ⟨rfl,
   (getBlocks_hints linuxHost (GoMap.set (GoMap.set GoMap.make "/dev/sda".toList "sat".toList)
      "/dev/bus/0".toList "megaraid,4".toList) "/dev/bus/0".toList rfl).1 0
      ⟨"sda".toList, "pci-0000:00:1f.2-ata-1".toList⟩ rfl (by decide),
   ((getBlocks_hints linuxHost (GoMap.set (GoMap.set GoMap.make "/dev/sda".toList "sat".toList)
      "/dev/bus/0".toList "megaraid,4".toList) "/dev/bus/0".toList rfl).2 (by
        intro i d hd _
        cases i with
        | zero =>
          have hd2 : d = ⟨"sda".toList, "pci-0000:00:1f.2-ata-1".toList⟩ := by
            have : linuxHost.blockDisks[0]? =
              some ⟨"sda".toList, "pci-0000:00:1f.2-ata-1".toList⟩ := rfl
            rw [this] at hd
            exact (Option.some.inj hd).symm
          subst hd2
          decide
        | succ n =>
          have : linuxHost.blockDisks[n + 1]? = none := rfl
          rw [this] at hd
          cases hd)).trans (by decide)⟩

/-! ### C18: from a scan line to the smartctl arguments -/

theorem Fields_go_ne_nil (s cur : List Char) : ∀ f ∈ Fields.go cur s, f ≠ [] := by
  induction s generalizing cur with
  | nil =>
    intro f hf
    unfold Fields.go at hf
    cases cur with
    | nil => simp at hf
    | cons c cs =>
      simp only [List.isEmpty_cons, Bool.false_eq_true, if_false, List.mem_singleton] at hf
      rw [hf]
      simp
  | cons x xs ih =>
    intro f hf
    unfold Fields.go at hf
    by_cases hsp : isSpace x = true
    · rw [if_pos hsp] at hf
      cases cur with
      | nil =>
        simp only [List.isEmpty_nil, if_true] at hf
        exact ih [] f hf
      | cons c cs =>
        simp only [List.isEmpty_cons, Bool.false_eq_true, if_false, List.mem_cons] at hf
        rcases hf with hf | hf
        · rw [hf]
          simp
        · exact ih [] f hf
    · rw [if_neg hsp] at hf
      exact ih _ f hf

/-- Every field is a non-empty text. -/
theorem Fields_getElem_ne_nil (text f : GoString) (i : Nat) (h : (Fields text)[i]? = some f) :
    f ≠ [] :=
  Fields_go_ne_nil text [] f (List.getElem?_mem h)

/-- What the loop body of `getSmartDisks` writes for a line it does not ignore. -/
theorem scanOpenLine_entry (disks : DiskSet) (text f0 f2 : GoString)
    (hlen : 3 ≤ (Fields text).length)
    (h0 : (Fields text)[0]? = some f0) (h2 : (Fields text)[2]? = some f2)
    (hhash : f0 ≠ "#".toList) :
    scanOpenLine disks text =
      if Contains f2 ",".toList = true then disks.set f2 f0 else disks.set f0 f2 := by
  have hl : ¬ (Fields text).length < 3 := by omega
  have hg0 : (Fields text).getD 0 [] = f0 := by simp [List.getD, h0]
  have hg2 : (Fields text).getD 2 [] = f2 := by simp [List.getD, h2]
  have hns : (some f0 == some "#".toList) = false := by simpa using hhash
  unfold scanOpenLine
  simp only [hl, h0, hns, hg0, hg2, decide_False, Bool.or_self, Bool.false_eq_true, if_false]

/-- C18, as stated, fails: the scan line `/dev/sda -d /dev/md,1` has a first field
that is not `#`, has no comma and is not blocklisted; its third field has a comma, so
the entry is `/dev/md,1` with hint `/dev/sda`, and for that entry `getDiskData`
builds no arguments at all, because the key starts with the blocklisted `/dev/md`. -/
theorem scanOpenLine_args_counterexample :
    3 ≤ (Fields "/dev/sda -d /dev/md,1".toList).length ∧
    (Fields "/dev/sda -d /dev/md,1".toList)[0]? = some "/dev/sda".toList ∧
    (Fields "/dev/sda -d /dev/md,1".toList)[2]? = some "/dev/md,1".toList ∧
    "/dev/sda".toList ≠ "#".toList ∧ ',' ∉ "/dev/sda".toList ∧
    blocklisted "/dev/sda".toList = false ∧
    linuxHost.IsSynology = false ∧
    scanOpenLine GoMap.make "/dev/sda -d /dev/md,1".toList =
      GoMap.set GoMap.make "/dev/md,1".toList "/dev/sda".toList ∧
    getDiskDataArgs linuxHost.IsSynology "/dev/md,1".toList "/dev/sda".toList = none ∧
    getDiskData linuxHost Snapshot.allocated "/dev/md,1".toList "/dev/sda".toList false =
      Except.ok (Snapshot.allocated, none) ∧
    getDiskData linuxHost Snapshot.allocated "/dev/md,1".toList "/dev/sda".toList false ≠
      runSmartctl linuxHost Snapshot.allocated "/dev/md,1".toList false
        ["-d".toList, "/dev/md,1".toList, "-AH".toList, "/dev/sda".toList] := by
  decide

/-- C18 (amended): off Synology, for a scan line with at least 3 fields whose first
field is not `#`, has no comma and is not blocklisted, and whose third field is not
blocklisted either when it has a comma, the entry the line creates makes `getDiskData`
run smartctl with exactly `-d <third field> -AH <first field>`: the entry is
(third, first) when the third field has a comma and (first, third) when it has not. -/
theorem scanOpenLine_args (h : Host) (s : Snapshot) (useSudo : Bool) (disks : DiskSet)
    (text f0 f2 : GoString)
    (hsyn : h.IsSynology = false)
    (hlen : 3 ≤ (Fields text).length)
    (h0 : (Fields text)[0]? = some f0) (h2 : (Fields text)[2]? = some f2)
    (hhash : f0 ≠ "#".toList) (hcomma : ',' ∉ f0) (hblock : blocklisted f0 = false)
    (hblock2 : ',' ∈ f2 → blocklisted f2 = false) :
    (',' ∈ f2 →
      scanOpenLine disks text = disks.set f2 f0 ∧
      (scanOpenLine disks text).get? f2 = some f0 ∧
      getDiskData h s f2 f0 useSudo =
        runSmartctl h s f2 useSudo ["-d".toList, f2, "-AH".toList, f0]) ∧
    (',' ∉ f2 →
      scanOpenLine disks text = disks.set f0 f2 ∧
      (scanOpenLine disks text).get? f0 = some f2 ∧
      getDiskData h s f0 f2 useSudo =
        runSmartctl h s f0 useSudo ["-d".toList, f2, "-AH".toList, f0]) := by
  have he := scanOpenLine_entry disks text f0 f2 hlen h0 h2 hhash
  have hf0 : (f0 != []) = true := by simpa using Fields_getElem_ne_nil text f0 0 h0
  have hf2 : (f2 != []) = true := by simpa using Fields_getElem_ne_nil text f2 2 h2
  have hc0 : Contains f0 ",".toList = false := (Contains_singleton_false f0 ',').mpr hcomma
  constructor
  · intro hc
    have hc2 : Contains f2 ",".toList = true := (Contains_singleton f2 ',').mpr hc
    rw [he, if_pos hc2]
    refine ⟨rfl, GoMap.get?_set_self disks f2 f0, ?_⟩
    unfold getDiskData getDiskDataArgs
    rw [hblock2 hc, hsyn, hf0, hc2]
    rfl
  · intro hc
    have hc2 : Contains f2 ",".toList = false := (Contains_singleton_false f2 ',').mpr hc
    rw [he, hc2]
    refine ⟨rfl, GoMap.get?_set_self disks f0 f2, ?_⟩
    unfold getDiskData getDiskDataArgs
    rw [hblock, hsyn, hf2, hc0]
    rfl

/-- Witness of C18 (amended): the line smartctl prints for a SATA disk. -/
theorem scanOpenLine_args_witness :
    3 ≤ (Fields "/dev/sda -d sat # /dev/sda [SAT], ATA device".toList).length ∧
    getDiskData linuxHost Snapshot.allocated "/dev/sda".toList "sat".toList false =
      runSmartctl linuxHost Snapshot.allocated "/dev/sda".toList false
        ["-d".toList, "sat".toList, "-AH".toList, "/dev/sda".toList] :=
  ⟨by decide,
   ((scanOpenLine_args linuxHost Snapshot.allocated false GoMap.make
      "/dev/sda -d sat # /dev/sda [SAT], ATA device".toList "/dev/sda".toList "sat".toList
      rfl (by decide) (by decide) (by decide) (by decide) (by decide) (by decide)
      (fun hc => absurd hc (by decide))).2 (by decide)).2.2⟩

/-! ### C17: the switch of `scanSmartctl` against the rule table -/

theorem Index_go_nonneg_iff_substring (sep s : GoString) (i : Nat) :
    0 ≤ Index.go sep s i ↔ sep <:+: s := by
  induction s generalizing i with
  | nil =>
    cases sep with
    | nil => simp [Index.go]
    | cons c cs => simp [Index.go]
  | cons x xs ih =>
    unfold Index.go
    rw [List.infix_cons_iff]
    by_cases hp : sep.isPrefixOf (x :: xs) = true
    · rw [if_pos hp]
      constructor
      · exact fun _ => Or.inl (List.isPrefixOf_iff_prefix.mp hp)
      · intro _
        omega
    · rw [if_neg hp, ih]
      constructor
      · exact fun hh => Or.inr hh
      · rintro (hh | hh)
        · exact absurd (List.isPrefixOf_iff_prefix.mpr hh) hp
        · exact hh

/-- The code's `strings.Contains` is the substring relation. -/
theorem Contains_eq_substring (s sub : GoString) : Contains s sub = decide (sub <:+: s) := by
  unfold Contains Index
  exact decide_eq_decide.mpr (Index_go_nonneg_iff_substring sub s 0)

theorem Split_go_head (cur s : List Char) :
    (Split.go ':' cur s)[0]? = some (cur.reverse ++ s.takeWhile (fun c => c != ':')) := by
  induction s generalizing cur with
  | nil => simp [Split.go]
  | cons x xs ih =>
    unfold Split.go
    by_cases hx : x = ':'
    · simp [hx]
    · rw [if_neg hx, ih]
      simp [hx]

/-- The first piece of `strings.Split(f, ":")` is the text before the first colon. -/
theorem Split_head (f : GoString) :
    index (Split f ':') 0 = Except.ok (f.takeWhile (fun c => c != ':')) := by
  unfold index Split
  rw [Split_go_head]
  simp

/-- Replacing every comma by nothing strips the commas. -/
theorem ReplaceAll_comma (f : GoString) :
    ReplaceAll f ',' [] = f.filter (fun c => c != ',') := by
  unfold ReplaceAll
  induction f with
  | nil => rfl
  | cons x xs ih =>
    rw [List.flatMap_cons, ih]
    by_cases hx : x = ','
    · simp [hx]
    · simp [hx]

theorem take3_flatten (fields : List GoString) (hlen : 3 < fields.length) :
    (fields.take 3).flatten = fields.getD 0 [] ++ fields.getD 1 [] ++ fields.getD 2 [] := by
  match fields, hlen with
  | a :: b :: c :: d :: rest, _ => simp

/-- Carrying out a case writes the metric the case stands for. -/
theorem assign_writeMetric (ages temps : GoMap Int) (health : GoMap GoString)
    (calls : List Invocation) (name : GoString) (a : Assign) (w : Option Metric)
    (h : assignMetric a = some w) :
    assign ⟨some ages, some temps, some health, calls⟩ name a =
      Except.ok (writeMetric ⟨some ages, some temps, some health, calls⟩ name w) := by
  cases a with
  | DriveTemps arg =>
    simp only [assignMetric, parseInteger] at h
    by_cases he : (Atoi arg).2 = none
    · simp only [he, if_true, Option.map_some', Option.some.injEq] at h
      subst h
      rfl
    · simp only [he, if_false, Option.map_none'] at h
      cases h
  | DriveAges arg =>
    simp only [assignMetric, parseInteger] at h
    by_cases he : (Atoi arg).2 = none
    · simp only [he, if_true, Option.map_some', Option.some.injEq] at h
      subst h
      rfl
    · simp only [he, if_false, Option.map_none'] at h
      cases h
  | DiskHealth val =>
    simp only [assignMetric, Option.some.injEq] at h
    subst h
    rfl
  | skip =>
    simp only [assignMetric, Option.some.injEq] at h
    subst h
    rfl

/-- Where the rule table is defined, the `switch` selects a case that stands for the
same metric. -/
theorem scanCase_refines (text : GoString) (w : Option Metric)
    (hspec : firstMatch ruleTable text = some w) :
    ∃ a, scanCase text = Except.ok a ∧ assignMetric a = some w := by
  simp only [ruleTable, firstMatch, rule1, rule2, rule3, rule4, rule5, rule6, rule7, rule8]
    at hspec
  by_cases h1 : HasPrefix text "Current Drive Temperature:".toList = true
  · rw [if_pos h1] at hspec
    cases hf : (Fields text)[3]? with
    | none => simp [hf] at hspec
    | some f =>
      refine ⟨Assign.DriveTemps f, ?_, ?_⟩
      · unfold scanCase
        simp only [h1, if_true, index_eq_ok _ 3 _ hf, Except.map]
      · rw [hf] at hspec
        exact hspec
  · rw [if_neg h1] at hspec
    have h1f : HasPrefix text "Current Drive Temperature:".toList = false := by
      simpa using h1
    by_cases h2 : HasPrefix text "Accumulated power on time, hours:minutes".toList = true
    · rw [if_pos h2] at hspec
      cases hf : (Fields text)[5]? with
      | none => simp [hf] at hspec
      | some f =>
        refine ⟨Assign.DriveAges (f.takeWhile (fun c => c != ':')), ?_, ?_⟩
        · unfold scanCase
          simp only [h1f, h2, if_true, Bool.false_eq_true, if_false, index_eq_ok _ 5 _ hf,
            Except.bind, Split_head, Except.map]
        · rw [hf] at hspec
          exact hspec
    · rw [if_neg h2] at hspec
      have h2f : HasPrefix text "Accumulated power on time, hours:minutes".toList = false := by
        simpa using h2
      have e3 : decide (2 ≤ (Fields text).length) = decide ((Fields text).length > 1) :=
        decide_eq_decide.mpr (by omega)
      rw [e3] at hspec
      by_cases h3 : (decide ((Fields text).length > 1) &&
          (Fields text)[0]? == some "Temperature:".toList) = true
      · rw [if_pos h3] at hspec
        cases hf : (Fields text)[1]? with
        | none => simp [hf] at hspec
        | some f =>
          refine ⟨Assign.DriveTemps f, ?_, ?_⟩
          · unfold scanCase
            simp only [h1f, h2f, h3, if_true, Bool.false_eq_true, if_false,
              index_eq_ok _ 1 _ hf, Except.map]
          · rw [hf] at hspec
            exact hspec
      · rw [if_neg h3] at hspec
        have h3f : (decide ((Fields text).length > 1) &&
            (Fields text)[0]? == some "Temperature:".toList) = false := by
          simpa using h3
        have e4 : (decide (4 ≤ (Fields text).length) &&
            ((Fields text).take 3).flatten == "PowerOnHours:".toList) =
            (decide ((Fields text).length > 3) &&
              (Fields text).getD 0 [] ++ (Fields text).getD 1 [] ++ (Fields text).getD 2 [] ==
                "PowerOnHours:".toList) := by
          by_cases hl : 3 < (Fields text).length
          · rw [take3_flatten _ hl]
            have : decide (4 ≤ (Fields text).length) = decide ((Fields text).length > 3) :=
              decide_eq_decide.mpr (by omega)
            rw [this]
          · have ha : decide (4 ≤ (Fields text).length) = false :=
              decide_eq_false (by omega)
            have hb : decide ((Fields text).length > 3) = false :=
              decide_eq_false (by omega)
            rw [ha, hb, Bool.false_and, Bool.false_and]
        rw [e4] at hspec
        by_cases h4 : (decide ((Fields text).length > 3) &&
            (Fields text).getD 0 [] ++ (Fields text).getD 1 [] ++ (Fields text).getD 2 [] ==
              "PowerOnHours:".toList) = true
        · rw [if_pos h4] at hspec
          cases hf : (Fields text)[3]? with
          | none => simp [hf] at hspec
          | some f =>
            refine ⟨Assign.DriveAges (ReplaceAll f ',' []), ?_, ?_⟩
            · unfold scanCase
              simp only [h1f, h2f, h3f, h4, if_true, Bool.false_eq_true, if_false,
                index_eq_ok _ 3 _ hf, Except.map]
            · rw [hf] at hspec
              rw [ReplaceAll_comma]
              exact hspec
        · rw [if_neg h4] at hspec
          have h4f : (decide ((Fields text).length > 3) &&
              (Fields text).getD 0 [] ++ (Fields text).getD 1 [] ++ (Fields text).getD 2 [] ==
                "PowerOnHours:".toList) = false := by
            simpa using h4
          rw [← Contains_eq_substring, ← Contains_eq_substring] at hspec
          by_cases h5 : (Contains text "self-assessment ".toList ||
              Contains text "SMART Health Status:".toList) = true
          · rw [if_pos h5] at hspec
            cases hf : (Fields text).getLast? with
            | none => simp [hf] at hspec
            | some v =>
              refine ⟨Assign.DiskHealth v, ?_, ?_⟩
              · unfold scanCase
                simp only [h1f, h2f, h3f, h4f, h5, if_true, Bool.false_eq_true, if_false, hf]
              · rw [hf] at hspec
                exact hspec
          · rw [if_neg h5] at hspec
            have h5f : (Contains text "self-assessment ".toList ||
                Contains text "SMART Health Status:".toList) = false := by
              simpa using h5
            by_cases h6 : decide ((Fields text).length < 10) = true
            · rw [if_pos h6] at hspec
              refine ⟨Assign.skip, ?_, hspec⟩
              unfold scanCase
              simp only [h1f, h2f, h3f, h4f, h5f, h6, if_true, Bool.false_eq_true, if_false]
            · rw [if_neg h6] at hspec
              have h6f : decide ((Fields text).length < 10) = false := by simpa using h6
              have hlen : 10 ≤ (Fields text).length := by simpa using h6
              have hi1 : 1 < (Fields text).length := by omega
              have hf1 : (Fields text)[1]? = some ((Fields text)[1]) :=
                List.getElem?_eq_getElem hi1
              rw [hf1] at hspec
              simp only [] at hspec
              by_cases h7 : (HasPrefix ((Fields text)[1]) "Airflow_Temp".toList ||
                  HasPrefix ((Fields text)[1]) "Temperature_Cel".toList) = true
              · rw [if_pos h7] at hspec
                cases hf : (Fields text)[9]? with
                | none => simp [hf] at hspec
                | some f =>
                  refine ⟨Assign.DriveTemps f, ?_, ?_⟩
                  · unfold scanCase
                    simp only [h1f, h2f, h3f, h4f, h5f, h6f, Bool.false_eq_true, if_false,
                      index_eq_ok _ 1 _ hf1, Except.bind, h7, if_true, index_eq_ok _ 9 _ hf,
                      Except.map]
                  · rw [hf] at hspec
                    exact hspec
              · rw [if_neg h7] at hspec
                have h7f : (HasPrefix ((Fields text)[1]) "Airflow_Temp".toList ||
                    HasPrefix ((Fields text)[1]) "Temperature_Cel".toList) = false := by
                  simpa using h7
                by_cases h8 : HasPrefix ((Fields text)[1]) "Power_On_Hour".toList = true
                · rw [if_pos h8] at hspec
                  cases hf : (Fields text)[9]? with
                  | none => simp [hf] at hspec
                  | some f =>
                    refine ⟨Assign.DriveAges f, ?_, ?_⟩
                    · unfold scanCase
                      simp only [h1f, h2f, h3f, h4f, h5f, h6f, Bool.false_eq_true, if_false,
                        index_eq_ok _ 1 _ hf1, Except.bind, h7f, h8, if_true,
                        index_eq_ok _ 9 _ hf, Except.map]
                    · rw [hf] at hspec
                      exact hspec
                · rw [if_neg h8] at hspec
                  have h8f : HasPrefix ((Fields text)[1]) "Power_On_Hour".toList = false := by
                    simpa using h8
                  refine ⟨Assign.skip, ?_, hspec⟩
                  unfold scanCase
                  simp only [h1f, h2f, h3f, h4f, h5f, h6f, Bool.false_eq_true, if_false,
                    index_eq_ok _ 1 _ hf1, Except.bind, h7f, h8f]

/-- C17: for a line on which the rule table is defined (the fields the first
applicable rule refers to exist and its number parses), one iteration of
`scanSmartctl` does exactly what the table says, first match wins: it writes the one
metric of the lowest-numbered applicable rule under the name of the disk, or nothing
when that rule is rule 6 or no rule applies. -/
theorem scanLine_refines_ruleTable (ages temps : GoMap Int) (health : GoMap GoString)
    (calls : List Invocation) (name text : GoString) (w : Option Metric)
    (hspec : firstMatch ruleTable text = some w) :
    scanLine ⟨some ages, some temps, some health, calls⟩ name text =
      Except.ok (writeMetric ⟨some ages, some temps, some health, calls⟩ name w) := by
  obtain ⟨a, ha, hw⟩ := scanCase_refines text w hspec
  unfold scanLine
  rw [ha]
  exact assign_writeMetric ages temps health calls name a w hw

/-- Witness of C17: the first field is `Temperature:` and the line also holds
`SMART Health Status:`; rule 3 wins, the temperature is set and health is untouched. -/
theorem scanLine_refines_ruleTable_witness :
    firstMatch ruleTable "Temperature: 40 SMART Health Status: OK".toList =
      some (some (Metric.temperature 40)) ∧
    scanLine Snapshot.allocated "/dev/sda".toList
      "Temperature: 40 SMART Health Status: OK".toList =
        Except.ok ⟨some GoMap.make, some (GoMap.set GoMap.make "/dev/sda".toList 40),
          some GoMap.make, []⟩ :=
  ⟨by decide,
   scanLine_refines_ruleTable GoMap.make GoMap.make GoMap.make [] "/dev/sda".toList
     "Temperature: 40 SMART Health Status: OK".toList (some (Metric.temperature 40))
     (by decide)⟩

/-! ### One disk at a time -/

/-- A snapshot whose maps are allocated, spelled out. -/
theorem mapsMade_shape (s : Snapshot) (h : s.mapsMade = true) :
    ∃ ages temps health calls, s = ⟨some ages, some temps, some health, calls⟩ := by
  obtain ⟨a, t, hl, c⟩ := s
  cases a <;> cases t <;> cases hl <;> simp [Snapshot.mapsMade] at h
  exact ⟨_, _, _, _, rfl⟩

theorem reading_set_ne {V : Type} (m : GoMap V) (n k : GoString) (v : V) (hk : k ≠ n) :
    (some (m.set n v)).bind (fun m => m.get? k) = (some m).bind (fun m => m.get? k) := by
  simp only [Option.some_bind]
  exact GoMap.get?_set_ne m n k v hk

/-- Carrying out a case for the disk `name` keeps the maps allocated and the call
history as it was, changes the reading of `name` as `assignReading` says and
leaves the reading of every other key alone. -/
theorem assign_made (s : Snapshot) (name : GoString) (a : Assign) (hs : s.mapsMade = true) :
    ∃ s1, assign s name a = Except.ok s1 ∧ s1.mapsMade = true ∧ s1.calls = s.calls ∧
      s1.reading name = assignReading (s.reading name) a ∧
      ∀ k, k ≠ name → s1.reading k = s.reading k := by
  obtain ⟨ages, temps, health, calls, rfl⟩ := mapsMade_shape s hs
  cases a with
  | DriveTemps arg =>
    refine ⟨_, rfl, rfl, rfl, ?_, ?_⟩
    · simp [Snapshot.reading, assignReading, GoMap.get?_set_self]
    · intro k hk
      simp [Snapshot.reading, GoMap.get?_set_ne _ _ _ _ hk]
  | DriveAges arg =>
    refine ⟨_, rfl, rfl, rfl, ?_, ?_⟩
    · simp [Snapshot.reading, assignReading, GoMap.get?_set_self]
    · intro k hk
      simp [Snapshot.reading, GoMap.get?_set_ne _ _ _ _ hk]
  | DiskHealth val =>
    refine ⟨_, rfl, rfl, rfl, ?_, ?_⟩
    · simp [Snapshot.reading, assignReading, GoMap.get?_set_self]
    · intro k hk
      simp [Snapshot.reading, GoMap.get?_set_ne _ _ _ _ hk]
  | skip => exact ⟨_, rfl, rfl, rfl, rfl, fun _ _ => rfl⟩

theorem scanSmartctl_made (lines : List GoString) (s : Snapshot) (name : GoString)
    (hs : s.mapsMade = true) (hl : lines.all lineOk = true) :
    ∃ s1, scanSmartctl s lines name = Except.ok s1 ∧ s1.mapsMade = true ∧
      s1.calls = s.calls ∧
      s1.reading name = linesReading (s.reading name) lines ∧
      ∀ k, k ≠ name → s1.reading k = s.reading k := by
  induction lines generalizing s with
  | nil => exact ⟨s, rfl, hs, rfl, rfl, fun _ _ => rfl⟩
  | cons text rest ih =>
    simp only [List.all_cons, Bool.and_eq_true] at hl
    obtain ⟨hl1, hl2⟩ := hl
    unfold lineOk at hl1
    cases hc : scanCase text with
    | error p => simp [hc] at hl1
    | ok a =>
      obtain ⟨s1, h1, hm1, hc1, hr1, hf1⟩ := assign_made s name a hs
      obtain ⟨s2, h2, hm2, hc2, hr2, hf2⟩ := ih s1 hm1 hl2
      refine ⟨s2, ?_, hm2, by rw [hc2, hc1], ?_, ?_⟩
      · unfold scanSmartctl scanLine
        simp only [hc, Except.bind, h1]
        exact h2
      · rw [hr2, hr1]
        simp only [linesReading, hc]
      · intro k hk
        rw [hf2 k hk, hf1 k hk]

theorem scanSmartctl_bad (lines : List GoString) (s : Snapshot) (name : GoString)
    (hs : s.mapsMade = true) (hl : lines.all lineOk = false) :
    ∃ p, scanSmartctl s lines name = Except.error p := by
  induction lines generalizing s with
  | nil => simp at hl
  | cons text rest ih =>
    cases hc : scanCase text with
    | error p =>
      refine ⟨p, ?_⟩
      unfold scanSmartctl scanLine
      simp only [hc, Except.bind]
    | ok a =>
      have hl1 : lineOk text = true := by
        unfold lineOk
        rw [hc]
      have hl2 : rest.all lineOk = false := by
        rw [List.all_cons, hl1, Bool.true_and] at hl
        exact hl
      obtain ⟨s1, h1, hm1, _, _, _⟩ := assign_made s name a hs
      obtain ⟨p, hp⟩ := ih s1 hm1 hl2
      refine ⟨p, ?_⟩
      unfold scanSmartctl scanLine
      simp only [hc, Except.bind, h1]
      exact hp

theorem getDiskData_made (h : Host) (s : Snapshot) (name dev : GoString) (useSudo : Bool)
    (hs : s.mapsMade = true) (hok : diskOk h useSudo name dev = true) :
    ∃ s1, getDiskData h s name dev useSudo = Except.ok (s1, diskError h useSudo name dev) ∧
      s1.mapsMade = true ∧
      s1.calls = s.calls ++ diskCalls h useSudo name dev ∧
      s1.reading name = diskReading h useSudo name dev (s.reading name) ∧
      ∀ k, k ≠ name → s1.reading k = s.reading k := by
  unfold getDiskData diskError diskCalls diskReading
  unfold diskOk at hok
  cases hargs : getDiskDataArgs h.IsSynology name dev with
  | none => exact ⟨s, rfl, hs, by simp, rfl, fun _ _ => rfl⟩
  | some args =>
    rw [hargs] at hok
    simp only at hok ⊢
    unfold runSmartctl
    cases hcmd : h.command useSudo "smartctl".toList args with
    | notReady err =>
      exact ⟨_, rfl, hs, rfl, rfl, fun _ _ => rfl⟩
    | ran stdout exit =>
      rw [hcmd] at hok
      simp only at hok ⊢
      obtain ⟨s1, h1, hm1, hc1, hr1, hf1⟩ := scanSmartctl_made stdout
        { s with calls := s.calls ++ [⟨useSudo, "smartctl".toList, args⟩] } name hs hok
      refine ⟨s1, ?_, hm1, hc1, hr1, hf1⟩
      rw [h1]
      rfl

theorem getDiskData_bad (h : Host) (s : Snapshot) (name dev : GoString) (useSudo : Bool)
    (hs : s.mapsMade = true) (hok : diskOk h useSudo name dev = false) :
    ∃ p, getDiskData h s name dev useSudo = Except.error p := by
  unfold getDiskData
  unfold diskOk at hok
  cases hargs : getDiskDataArgs h.IsSynology name dev with
  | none => simp [hargs] at hok
  | some args =>
    rw [hargs] at hok
    simp only at hok ⊢
    unfold runSmartctl
    cases hcmd : h.command useSudo "smartctl".toList args with
    | notReady err =>
      rw [hcmd] at hok
      cases hok
    | ran stdout exit =>
      rw [hcmd] at hok
      simp only at hok ⊢
      obtain ⟨p, hp⟩ := scanSmartctl_bad stdout
        { s with calls := s.calls ++ [⟨useSudo, "smartctl".toList, args⟩] } name hs hok
      refine ⟨p, ?_⟩
      rw [hp]
      rfl

/-! ### The loop over the disk set -/

/-- When the output of every disk parses, the loop returns: it has appended the
result of every disk in turn and made the invocation of every disk in turn. -/
theorem diskLoop_made (h : Host) (useSudo : Bool) (L : List (GoString × GoString))
    (s : Snapshot) (errs : List (Option GoError)) (hs : s.mapsMade = true)
    (hok : ∀ x ∈ L, diskOk h useSudo x.1 x.2 = true) :
    ∃ s1, diskLoop h useSudo s errs L =
        Except.ok (s1, errs ++ L.map (fun x => diskError h useSudo x.1 x.2)) ∧
      s1.mapsMade = true ∧
      s1.calls = s.calls ++ (L.map (fun x => diskCalls h useSudo x.1 x.2)).flatten := by
  induction L generalizing s errs with
  | nil => exact ⟨s, by simp [diskLoop], hs, by simp⟩
  | cons x rest ih =>
    obtain ⟨name, dev⟩ := x
    obtain ⟨s1, h1, hm1, hc1, _, _⟩ :=
      getDiskData_made h s name dev useSudo hs (hok (name, dev) (by simp))
    obtain ⟨s2, h2, hm2, hc2⟩ := ih s1 (errs ++ [diskError h useSudo name dev]) hm1
      (fun y hy => hok y (by simp [hy]))
    refine ⟨s2, ?_, hm2, ?_⟩
    · unfold diskLoop
      simp only [h1, h2, List.map_cons, List.append_assoc, List.singleton_append]
    · rw [hc2, hc1]
      simp

/-- A disk whose output does not parse stops the loop with a panic. -/
theorem diskLoop_bad (h : Host) (useSudo : Bool) (L : List (GoString × GoString))
    (s : Snapshot) (errs : List (Option GoError)) (hs : s.mapsMade = true)
    (hbad : ∃ x ∈ L, diskOk h useSudo x.1 x.2 = false) :
    ∃ p, diskLoop h useSudo s errs L = Except.error p := by
  induction L generalizing s errs with
  | nil => simp at hbad
  | cons x rest ih =>
    obtain ⟨name, dev⟩ := x
    cases hx : diskOk h useSudo name dev with
    | false =>
      obtain ⟨p, hp⟩ := getDiskData_bad h s name dev useSudo hs hx
      refine ⟨p, ?_⟩
      unfold diskLoop
      simp only [hp]
    | true =>
      obtain ⟨s1, h1, hm1, _, _, _⟩ := getDiskData_made h s name dev useSudo hs hx
      have hrest : ∃ y ∈ rest, diskOk h useSudo y.1 y.2 = false := by
        obtain ⟨y, hy, hyb⟩ := hbad
        simp only [List.mem_cons] at hy
        rcases hy with hy | hy
        · rw [hy] at hyb
          simp only at hyb
          rw [hx] at hyb
          cases hyb
        · exact ⟨y, hy, hyb⟩
      obtain ⟨p, hp⟩ := ih s1 (errs ++ [diskError h useSudo name dev]) hm1 hrest
      refine ⟨p, ?_⟩
      unfold diskLoop
      simp only [h1, hp]

/-- With distinct names in the list, the loop leaves under every listed name the
reading of that disk, and leaves every other key alone. -/
theorem diskLoop_reading (h : Host) (useSudo : Bool) (L : List (GoString × GoString))
    (s s1 : Snapshot) (errs errs1 : List (Option GoError)) (hs : s.mapsMade = true)
    (hnd : (L.map Prod.fst).Nodup)
    (hrun : diskLoop h useSudo s errs L = Except.ok (s1, errs1)) (k : GoString) :
    (∀ dev, (k, dev) ∈ L → s1.reading k = diskReading h useSudo k dev (s.reading k)) ∧
    (k ∉ L.map Prod.fst → s1.reading k = s.reading k) := by
  induction L generalizing s errs with
  | nil =>
    simp only [diskLoop, Except.ok.injEq, Prod.mk.injEq] at hrun
    obtain ⟨rfl, _⟩ := hrun
    simp
  | cons x rest ih =>
    obtain ⟨name, dev⟩ := x
    simp only [List.map_cons, List.nodup_cons] at hnd
    obtain ⟨hnot, hnd2⟩ := hnd
    cases hx : diskOk h useSudo name dev with
    | false =>
      obtain ⟨p, hp⟩ := getDiskData_bad h s name dev useSudo hs hx
      unfold diskLoop at hrun
      simp only [hp] at hrun
      cases hrun
    | true =>
      obtain ⟨s2, h2, hm2, _, hr2, hf2⟩ := getDiskData_made h s name dev useSudo hs hx
      unfold diskLoop at hrun
      simp only [h2] at hrun
      obtain ⟨ih1, ih2⟩ := ih s2 _ hm2 hnd2 hrun
      constructor
      · intro dev1 hmem
        simp only [List.mem_cons, Prod.mk.injEq] at hmem
        rcases hmem with ⟨hk, hd⟩ | hmem
        · subst hk
          subst hd
          rw [ih2 hnot, hr2]
        · have hkn : k ≠ name := by
            intro hh
            subst hh
            exact hnot (List.mem_map.mpr ⟨(k, dev1), hmem, rfl⟩)
          rw [ih1 dev1 hmem, hf2 k hkn]
      · intro hk
        simp only [List.map_cons, List.mem_cons, not_or] at hk
        rw [ih2 hk.2, hf2 k hk.1]

/-! ### The keys of the disk set are distinct -/

theorem mem_keys_setEntries {V : Type} (es : List (GoString × V)) (k x : GoString) (v : V)
    (hx : x ∈ (setEntries es k v).map Prod.fst) : x ∈ es.map Prod.fst ∨ x = k := by
  induction es with
  | nil =>
    simp only [setEntries, List.map_cons, List.map_nil, List.mem_singleton] at hx
    exact Or.inr hx
  | cons e es ih =>
    obtain ⟨k1, v1⟩ := e
    unfold setEntries at hx
    by_cases hk : k1 = k
    · rw [if_pos hk] at hx
      simp only [List.map_cons, List.mem_cons] at hx ⊢
      rcases hx with hx | hx
      · exact Or.inr hx
      · exact Or.inl (Or.inr hx)
    · rw [if_neg hk] at hx
      simp only [List.map_cons, List.mem_cons] at hx ⊢
      rcases hx with hx | hx
      · exact Or.inl (Or.inl hx)
      · rcases ih hx with hh | hh
        · exact Or.inl (Or.inr hh)
        · exact Or.inr hh

theorem nodup_keys_setEntries {V : Type} (es : List (GoString × V)) (k : GoString) (v : V)
    (hnd : (es.map Prod.fst).Nodup) : ((setEntries es k v).map Prod.fst).Nodup := by
  induction es with
  | nil => simp [setEntries]
  | cons e es ih =>
    obtain ⟨k1, v1⟩ := e
    simp only [List.map_cons, List.nodup_cons] at hnd
    unfold setEntries
    by_cases hk : k1 = k
    · rw [if_pos hk]
      simp only [List.map_cons, List.nodup_cons]
      rw [← hk]
      exact hnd
    · rw [if_neg hk]
      simp only [List.map_cons, List.nodup_cons]
      refine ⟨?_, ih hnd.2⟩
      intro hmem
      rcases mem_keys_setEntries es k k1 v hmem with hh | hh
      · exact hnd.1 hh
      · exact hk hh

theorem nodup_keys_set (m : DiskSet) (k v : GoString)
    (hnd : (m.entries.map Prod.fst).Nodup) : ((m.set k v).entries.map Prod.fst).Nodup :=
  nodup_keys_setEntries m.entries k v hnd

theorem nodup_keys_getPartsLoop (d : Bool) (parts : List PartitionStat) (disks : DiskSet)
    (hnd : (disks.entries.map Prod.fst).Nodup) :
    ((getPartsLoop d disks parts).entries.map Prod.fst).Nodup := by
  induction parts generalizing disks with
  | nil => exact hnd
  | cons part rest ih =>
    unfold getPartsLoop
    cases getPartsDevice d part with
    | none => exact ih disks hnd
    | some dev => exact ih _ (nodup_keys_set disks dev [] hnd)

theorem nodup_keys_scanOpenLine (disks : DiskSet) (text : GoString)
    (hnd : (disks.entries.map Prod.fst).Nodup) :
    ((scanOpenLine disks text).entries.map Prod.fst).Nodup := by
  unfold scanOpenLine
  dsimp only
  split
  · exact hnd
  · split
    · exact nodup_keys_set _ _ _ hnd
    · exact nodup_keys_set _ _ _ hnd

theorem nodup_keys_scanOpen (lines : List GoString) (disks : DiskSet)
    (hnd : (disks.entries.map Prod.fst).Nodup) :
    ((lines.foldl scanOpenLine disks).entries.map Prod.fst).Nodup := by
  induction lines generalizing disks with
  | nil => exact hnd
  | cons text rest ih => exact ih _ (nodup_keys_scanOpenLine disks text hnd)

theorem nodup_keys_getBlocksLoop (h : Host) (devs : List BlockDisk) (haveSet : List GoString)
    (disks : DiskSet) (hnd : (disks.entries.map Prod.fst).Nodup) :
    ((getBlocksLoop h haveSet disks devs).1.entries.map Prod.fst).Nodup := by
  induction devs generalizing haveSet disks with
  | nil => exact hnd
  | cons dev rest ih =>
    unfold getBlocksLoop
    split
    · exact ih haveSet disks hnd
    · exact ih _ _ (nodup_keys_set _ _ _ hnd)

/-- The merged disk set has no key twice. -/
theorem nodup_keys_discover (h : Host) (s : Snapshot) (useSudo : Bool) :
    ((discover h s useSudo).2.1.entries.map Prod.fst).Nodup := by
  have hp : ((getParts h GoMap.make).1.entries.map Prod.fst).Nodup := by
    unfold getParts
    cases h.partitionsErr with
    | some err => exact List.nodup_nil
    | none => exact nodup_keys_getPartsLoop _ _ _ List.nodup_nil
  have hq : ((getSmartDisks h s useSudo (getParts h GoMap.make).1).2.1.entries.map
      Prod.fst).Nodup := by
    unfold getSmartDisks
    cases h.command useSudo "smartctl".toList ["--scan-open".toList] with
    | notReady err => exact hp
    | ran stdout exit => exact nodup_keys_scanOpen stdout _ hp
  have hb : ((getBlocks h (getSmartDisks h s useSudo (getParts h GoMap.make).1).2.1).1.entries.map
      Prod.fst).Nodup := by
    unfold getBlocks
    cases h.blockErr with
    | some err => exact hq
    | none => exact nodup_keys_getBlocksLoop h _ _ _ hq
  unfold discover
  cases h.IsDarwin with
  | true => exact hp
  | false => exact hb

/-! ### Error returns do not stop the cycle -/

/-- Error returns do not stop the collection cycle.  Provided the smartctl output of
every disk of the merged set gets through the parser and ranging over the disk set
visits each entry once, `getDriveData` returns, whatever stages and invocations fail:
the error of a failed partition listing, scan probe and block inventory is in the
returned list; off Darwin the probe and the enumerator have run after a failed
earlier stage; with a non-empty disk set `getDiskData` has been run for every
entry exactly once, in the order of the range, its result being appended and its
invocation made; and the error of every failed invocation is in the returned list. -/
theorem getDriveData_returns_when_parsable (h : Host) (s : Snapshot) (useSudo : Bool)
    (hparse : ∀ x ∈ (discover h s useSudo).2.1.entries, diskOk h useSudo x.1 x.2 = true)
    (hperm : ∀ l, (h.rangeOrder l).Perm l) :
    ∃ s1 errs, getDriveData h s true useSudo = Except.ok (s1, errs) ∧
      (∀ e, h.partitionsErr = some e →
        some (GoError.wrap "unable to get partitions: ".toList e) ∈ errs) ∧
      (h.IsDarwin = false →
        (⟨useSudo, "smartctl".toList, ["--scan-open".toList]⟩ : Invocation) ∈ s1.calls ∧
        (discover h s useSudo).2.1 =
          (getBlocks h (getSmartDisks h s useSudo (getParts h GoMap.make).1).2.1).1 ∧
        (∀ e, (getSmartDisks h s useSudo (getParts h GoMap.make).1).2.2 = some e →
          some e ∈ errs) ∧
        (∀ e, h.blockErr = some e →
          some (GoError.wrap "unable to get block devices: ".toList e) ∈ errs)) ∧
      ((discover h s useSudo).2.1.len ≠ 0 →
        (h.rangeOrder (discover h s useSudo).2.1.entries).Perm
          (discover h s useSudo).2.1.entries ∧
        errs = (discover h s useSudo).2.2 ++
          (h.rangeOrder (discover h s useSudo).2.1.entries).map
            (fun x => diskError h useSudo x.1 x.2) ∧
        s1.calls = (discover h s useSudo).1.calls ++
          ((h.rangeOrder (discover h s useSudo).2.1.entries).map
            (fun x => diskCalls h useSudo x.1 x.2)).flatten) ∧
      (∀ x ∈ (discover h s useSudo).2.1.entries, ∀ e,
        diskError h useSudo x.1 x.2 = some e → some e ∈ errs) := by
  -- the errors of the discovery stages are in the list `discover` returns
  have hdp : ∀ e, h.partitionsErr = some e →
      some (GoError.wrap "unable to get partitions: ".toList e) ∈ (discover h s useSudo).2.2 := by
    intro e he
    unfold discover getParts
    rw [he]
    cases h.IsDarwin with
    | true => simp
    | false =>
      simp only [Bool.not_false, if_true]
      split <;> split <;> simp
  have hds : h.IsDarwin = false →
      ∀ e, (getSmartDisks h s useSudo (getParts h GoMap.make).1).2.2 = some e →
      some e ∈ (discover h s useSudo).2.2 := by
    intro hd e he
    unfold discover
    simp only [hd, Bool.not_false, if_true, he]
    split <;> simp
  have hdb : h.IsDarwin = false → ∀ e, h.blockErr = some e →
      some (GoError.wrap "unable to get block devices: ".toList e) ∈
        (discover h s useSudo).2.2 := by
    intro hd e he
    unfold discover getBlocks
    simp only [hd, Bool.not_false, if_true, he]
    simp
  have hdd : h.IsDarwin = false → (discover h s useSudo).2.1 =
      (getBlocks h (getSmartDisks h s useSudo (getParts h GoMap.make).1).2.1).1 := by
    intro hd
    unfold discover
    simp only [hd, Bool.not_false, if_true]
  have hdc : h.IsDarwin = false →
      (⟨useSudo, "smartctl".toList, ["--scan-open".toList]⟩ : Invocation) ∈
        (discover h s useSudo).1.calls := by
    intro hd
    rw [discover_snapshot, hd]
    simp
  by_cases hlen : (discover h s useSudo).2.1.len = 0
  · refine ⟨(discover h s useSudo).1, (discover h s useSudo).2.2 ++ [some GoError.ErrNoDisks],
      ?_, ?_, ?_, ?_, ?_⟩
    · unfold getDriveData
      simp only [Bool.not_true, Bool.false_eq_true, if_false, hlen, if_true]
    · exact fun e he => List.mem_append_left _ (hdp e he)
    · exact fun hd => ⟨hdc hd, hdd hd, fun e he => List.mem_append_left _ (hds hd e he),
        fun e he => List.mem_append_left _ (hdb hd e he)⟩
    · exact fun hne => absurd hlen hne
    · intro x hx
      have : (discover h s useSudo).2.1.entries = [] := List.length_eq_zero.mp hlen
      rw [this] at hx
      cases hx
  · have hm : ({ (discover h s useSudo).1 with
        DriveAges := some GoMap.make, DriveTemps := some GoMap.make,
        DiskHealth := some GoMap.make } : Snapshot).mapsMade = true := rfl
    obtain ⟨s1, h1, _, hc1⟩ := diskLoop_made h useSudo
      (h.rangeOrder (discover h s useSudo).2.1.entries) _ (discover h s useSudo).2.2 hm
      (fun x hx => hparse x ((hperm _).mem_iff.mp hx))
    refine ⟨s1, (discover h s useSudo).2.2 ++
      (h.rangeOrder (discover h s useSudo).2.1.entries).map
        (fun x => diskError h useSudo x.1 x.2), ?_, ?_, ?_, ?_, ?_⟩
    · unfold getDriveData
      simp only [Bool.not_true, Bool.false_eq_true, if_false, hlen]
      exact h1
    · exact fun e he => List.mem_append_left _ (hdp e he)
    · refine fun hd => ⟨?_, hdd hd, fun e he => List.mem_append_left _ (hds hd e he),
        fun e he => List.mem_append_left _ (hdb hd e he)⟩
      rw [hc1]
      exact List.mem_append_left _ (hdc hd)
    · exact fun _ => ⟨hperm _, rfl, hc1⟩
    · intro x hx e he
      apply List.mem_append_right
      rw [← he]
      exact List.mem_map.mpr ⟨x, (hperm _).mem_iff.mpr hx, rfl⟩

/-- On `failingHost` the partition listing, the scan probe and the invocation for the
only disk all fail, and the cycle still returns with the three errors. -/
theorem getDriveData_returns_on_failingHost :
    (∀ x ∈ (discover failingHost Snapshot.fresh false).2.1.entries,
      diskOk failingHost false x.1 x.2 = true) ∧
    ∃ s1 errs, getDriveData failingHost Snapshot.fresh true false = Except.ok (s1, errs) ∧
      some (GoError.wrap "unable to get partitions: ".toList
        (GoError.external "no mounts".toList)) ∈ errs ∧
      some (GoError.external "smartctl missing".toList) ∈ errs :=
  ⟨by decide,
   (getDriveData_returns_when_parsable failingHost Snapshot.fresh false (by decide)
      (fun l => List.Perm.refl l)).elim
     (fun s1 hh => hh.elim (fun errs hc =>
       ⟨s1, errs, hc.1, hc.2.1 _ rfl,
        hc.2.2.2.2 ("/dev/sda".toList, []) (by decide) _ (by decide)⟩))⟩

/-! ### C15: the order of the disks does not matter -/

/-- A parse writes only under the name of the disk it is run for. -/
theorem scanSmartctl_frame (lines : List GoString) (s s1 : Snapshot) (name k : GoString)
    (hs : s.mapsMade = true) (hrun : scanSmartctl s lines name = Except.ok s1)
    (hk : k ≠ name) : s1.reading k = s.reading k := by
  cases hl : lines.all lineOk with
  | false =>
    obtain ⟨p, hp⟩ := scanSmartctl_bad lines s name hs hl
    rw [hp] at hrun
    cases hrun
  | true =>
    obtain ⟨s2, h2, _, _, _, hf⟩ := scanSmartctl_made lines s name hs hl
    rw [h2] at hrun
    injection hrun with hrun
    rw [← hrun]
    exact hf k hk

/-- The loop over two arrangements of the same disks, from the same snapshot. -/
theorem diskLoop_order (h1 h2 : Host) (useSudo : Bool) (E L1 L2 : List (GoString × GoString))
    (s : Snapshot) (errs : List (Option GoError)) (hs : s.mapsMade = true)
    (hsyn : h1.IsSynology = h2.IsSynology) (hcmd : h1.command = h2.command)
    (hnd : (E.map Prod.fst).Nodup) (hp1 : L1.Perm E) (hp2 : L2.Perm E) :
    sameReadings (diskLoop h1 useSudo s errs L1) (diskLoop h2 useSudo s errs L2) := by
  have hok : ∀ n d, diskOk h1 useSudo n d = diskOk h2 useSudo n d := by
    intro n d
    unfold diskOk
    rw [hsyn, hcmd]
  have hrd : ∀ n d r, diskReading h1 useSudo n d r = diskReading h2 useSudo n d r := by
    intro n d r
    unfold diskReading
    rw [hsyn, hcmd]
  have hnd1 : (L1.map Prod.fst).Nodup := ((hp1.map Prod.fst).nodup_iff).mpr hnd
  have hnd2 : (L2.map Prod.fst).Nodup := ((hp2.map Prod.fst).nodup_iff).mpr hnd
  by_cases hall : ∀ x ∈ E, diskOk h1 useSudo x.1 x.2 = true
  · obtain ⟨t1, hr1, _, _⟩ := diskLoop_made h1 useSudo L1 s errs hs
      (fun x hx => hall x (hp1.mem_iff.mp hx))
    obtain ⟨t2, hr2, _, _⟩ := diskLoop_made h2 useSudo L2 s errs hs
      (fun x hx => by rw [← hok]; exact hall x (hp2.mem_iff.mp hx))
    rw [hr1, hr2]
    intro k
    obtain ⟨ha1, hb1⟩ := diskLoop_reading h1 useSudo L1 s t1 errs _ hs hnd1 hr1 k
    obtain ⟨ha2, hb2⟩ := diskLoop_reading h2 useSudo L2 s t2 errs _ hs hnd2 hr2 k
    show t1.reading k = t2.reading k
    by_cases hk : k ∈ E.map Prod.fst
    · obtain ⟨x, hx, hxk⟩ := List.mem_map.mp hk
      obtain ⟨n, d⟩ := x
      simp only at hxk
      subst hxk
      rw [ha1 d (hp1.mem_iff.mpr hx), ha2 d (hp2.mem_iff.mpr hx), hrd]
    · have hk1 : k ∉ L1.map Prod.fst := fun hh => hk ((hp1.map Prod.fst).mem_iff.mp hh)
      have hk2 : k ∉ L2.map Prod.fst := fun hh => hk ((hp2.map Prod.fst).mem_iff.mp hh)
      rw [hb1 hk1, hb2 hk2]
  · have hbad : ∃ x ∈ E, diskOk h1 useSudo x.1 x.2 = false := by
      by_contra hcon
      apply hall
      intro x hx
      cases hxo : diskOk h1 useSudo x.1 x.2 with
      | true => rfl
      | false => exact absurd ⟨x, hx, hxo⟩ hcon
    obtain ⟨x, hx, hxb⟩ := hbad
    obtain ⟨p1, hq1⟩ := diskLoop_bad h1 useSudo L1 s errs hs ⟨x, hp1.mem_iff.mpr hx, hxb⟩
    obtain ⟨p2, hq2⟩ := diskLoop_bad h2 useSudo L2 s errs hs
      ⟨x, hp2.mem_iff.mpr hx, by rw [← hok]; exact hxb⟩
    rw [hq1, hq2]
    trivial

theorem getBlocksLoop_congr (h1 h2 : Host) (devs : List BlockDisk) (haveSet : List GoString)
    (disks : DiskSet) (hl : h1.lowerTable = h2.lowerTable) (hw : h1.IsWindows = h2.IsWindows) :
    getBlocksLoop h1 haveSet disks devs = getBlocksLoop h2 haveSet disks devs := by
  induction devs generalizing haveSet disks with
  | nil => rfl
  | cons dev rest ih =>
    unfold getBlocksLoop
    rw [hl, hw, ih, ih]

/-- The discovery stages do not look at the order in which maps are ranged. -/
theorem discover_rangeOrder (h : Host) (s : Snapshot) (useSudo : Bool)
    (ord : List (GoString × GoString) → List (GoString × GoString)) :
    discover { h with rangeOrder := ord } s useSudo = discover h s useSudo := by
  have hb : ∀ d, getBlocks { h with rangeOrder := ord } d = getBlocks h d := by
    intro d
    unfold getBlocks
    rw [getBlocksLoop_congr { h with rangeOrder := ord } h _ _ _ rfl rfl]
  have hp : getParts { h with rangeOrder := ord } GoMap.make = getParts h GoMap.make := rfl
  have hq : ∀ d, getSmartDisks { h with rangeOrder := ord } s useSudo d =
      getSmartDisks h s useSudo d := fun _ => rfl
  unfold discover
  simp only [hb, hp, hq]

/-- C15: the contents of `DriveTemps`, `DriveAges` and `DiskHealth` do not depend on
the order in which the disk set is ranged.  Two cycles on the same host and
snapshot that differ only in that order either both panic or both return with the
same temperature, age and health under every key; they both return when the output
of every disk gets through the parser; and a parse writes only under the name of
the disk it is run for. -/
theorem getDriveData_order_independent (h : Host) (s : Snapshot) (run useSudo : Bool)
    (ord1 ord2 : List (GoString × GoString) → List (GoString × GoString))
    (hp1 : ∀ l, (ord1 l).Perm l) (hp2 : ∀ l, (ord2 l).Perm l) :
    sameReadings (getDriveData { h with rangeOrder := ord1 } s run useSudo)
      (getDriveData { h with rangeOrder := ord2 } s run useSudo) ∧
    ((∀ x ∈ (discover h s useSudo).2.1.entries, diskOk h useSudo x.1 x.2 = true) →
      ∃ r1 r2, getDriveData { h with rangeOrder := ord1 } s run useSudo = Except.ok r1 ∧
        getDriveData { h with rangeOrder := ord2 } s run useSudo = Except.ok r2 ∧
        ∀ k, r1.1.reading k = r2.1.reading k) ∧
    (∀ (t t1 : Snapshot) (lines : List GoString) (name k : GoString), t.mapsMade = true →
      scanSmartctl t lines name = Except.ok t1 → k ≠ name → t1.reading k = t.reading k) := by
  have hd1 := discover_rangeOrder h s useSudo ord1
  have hd2 := discover_rangeOrder h s useSudo ord2
  have hsame : sameReadings (getDriveData { h with rangeOrder := ord1 } s run useSudo)
      (getDriveData { h with rangeOrder := ord2 } s run useSudo) := by
    unfold getDriveData
    rw [hd1, hd2]
    cases run with
    | false => exact fun _ => rfl
    | true =>
      simp only [Bool.not_true, Bool.false_eq_true, if_false]
      by_cases hlen : (discover h s useSudo).2.1.len = 0
      · rw [if_pos hlen, if_pos hlen]
        exact fun _ => rfl
      · rw [if_neg hlen, if_neg hlen]
        exact diskLoop_order _ _ useSudo (discover h s useSudo).2.1.entries _ _ _ _ rfl rfl rfl
          (nodup_keys_discover h s useSudo) (hp1 _) (hp2 _)
  refine ⟨hsame, ?_, fun t t1 lines name k ht hrun hk =>
    scanSmartctl_frame lines t t1 name k ht hrun hk⟩
  intro hparse
  have hret : ∀ ord : List (GoString × GoString) → List (GoString × GoString),
      (∀ l, (ord l).Perm l) →
      ∃ r, getDriveData { h with rangeOrder := ord } s run useSudo = Except.ok r := by
    intro ord hp
    have hd := discover_rangeOrder h s useSudo ord
    unfold getDriveData
    rw [hd]
    cases run with
    | false => exact ⟨_, rfl⟩
    | true =>
      simp only [Bool.not_true, Bool.false_eq_true, if_false]
      by_cases hlen : (discover h s useSudo).2.1.len = 0
      · rw [if_pos hlen]
        exact ⟨_, rfl⟩
      · rw [if_neg hlen]
        obtain ⟨t, ht, _, _⟩ := diskLoop_made { h with rangeOrder := ord } useSudo
          (ord (discover h s useSudo).2.1.entries)
          { (discover h s useSudo).1 with
            DriveAges := some GoMap.make, DriveTemps := some GoMap.make,
            DiskHealth := some GoMap.make } (discover h s useSudo).2.2 rfl
          (fun x hx => hparse x ((hp _).mem_iff.mp hx))
        exact ⟨_, ht⟩
  obtain ⟨r1, hr1⟩ := hret ord1 hp1
  obtain ⟨r2, hr2⟩ := hret ord2 hp2
  refine ⟨r1, r2, hr1, hr2, ?_⟩
  rw [hr1, hr2] at hsame
  exact hsame

/-- Witness of C15: the two disks of `linuxHost`, ranged forwards and backwards. -/
theorem getDriveData_order_independent_witness :
    sameReadings
      (getDriveData { linuxHost with rangeOrder := fun l => l } Snapshot.fresh true false)
      (getDriveData { linuxHost with rangeOrder := List.reverse } Snapshot.fresh true false) :=
  (getDriveData_order_independent linuxHost Snapshot.fresh true false (fun l => l) List.reverse
    (fun l => List.Perm.refl l) (fun l => List.reverse_perm l)).1

/-! ### Where the parser can panic -/

theorem Fields_go_ne_nil_of (s cur : List Char)
    (h : cur ≠ [] ∨ ∃ c ∈ s, isSpace c = false) : Fields.go cur s ≠ [] := by
  induction s generalizing cur with
  | nil =>
    rcases h with h | ⟨c, hc, _⟩
    · unfold Fields.go
      cases cur with
      | nil => exact absurd rfl h
      | cons x xs => simp
    · cases hc
  | cons x xs ih =>
    unfold Fields.go
    by_cases hsp : isSpace x = true
    · rw [if_pos hsp]
      cases cur with
      | nil =>
        simp only [List.isEmpty_nil, if_true]
        apply ih
        rcases h with h | ⟨c, hc, hcs⟩
        · exact absurd rfl h
        · right
          simp only [List.mem_cons] at hc
          rcases hc with hc | hc
          · rw [hc, hsp] at hcs
            cases hcs
          · exact ⟨c, hc, hcs⟩
      | cons y ys => simp
    · rw [if_neg hsp]
      exact ih _ (Or.inl (by simp))

/-- A line that contains a text with a character that is not a space has a field. -/
theorem Fields_ne_nil_of_Contains (text sub : GoString) (c : Char) (hc : c ∈ sub)
    (hsp : isSpace c = false) (h : Contains text sub = true) : Fields text ≠ [] := by
  rw [Contains_eq_substring] at h
  have hin : sub <:+: text := of_decide_eq_true h
  exact Fields_go_ne_nil_of text [] (Or.inr ⟨c, hin.subset hc, hsp⟩)

/-- The `switch` panics on a line exactly when the line starts with one of the two
labels of the first two cases and has too few fields for the index that case reads. -/
theorem lineOk_eq_false_iff (text : GoString) :
    lineOk text = false ↔
      (HasPrefix text "Current Drive Temperature:".toList = true ∧ (Fields text).length < 4) ∨
      (HasPrefix text "Current Drive Temperature:".toList = false ∧
        HasPrefix text "Accumulated power on time, hours:minutes".toList = true ∧
        (Fields text).length < 6) := by
  have hidx : ∀ (i : Nat), i < (Fields text).length →
      index (Fields text) i = Except.ok ((Fields text)[i]?.getD []) := by
    intro i hi
    unfold index
    rw [List.getElem?_eq_getElem hi]
    rfl
  have hbad : ∀ (i : Nat), ¬ i < (Fields text).length →
      index (Fields text) i = Except.error Panic.indexOutOfRange := by
    intro i hi
    unfold index
    rw [List.getElem?_eq_none (by omega)]
  unfold lineOk scanCase
  dsimp only
  by_cases h1 : HasPrefix text "Current Drive Temperature:".toList = true
  · rw [if_pos h1]
    by_cases hl : 3 < (Fields text).length
    · rw [hidx 3 hl]
      simp only [Except.map, h1, true_and]
      constructor
      · intro hh
        cases hh
      · rintro (hh | ⟨hh, _⟩)
        · omega
        · cases hh
    · rw [hbad 3 hl]
      simp only [Except.map, h1, true_and, true_iff]
      left
      omega
  · rw [if_neg h1]
    have h1f : HasPrefix text "Current Drive Temperature:".toList = false := by simpa using h1
    by_cases h2 : HasPrefix text "Accumulated power on time, hours:minutes".toList = true
    · rw [if_pos h2]
      by_cases hl : 5 < (Fields text).length
      · rw [hidx 5 hl]
        simp only [Except.bind, Split_head, Except.map, h1f, h2, true_and]
        constructor
        · intro hh
          cases hh
        · rintro (⟨hh, _⟩ | hh)
          · cases hh
          · omega
      · rw [hbad 5 hl]
        simp only [Except.bind, h1f, h2, true_and, true_iff]
        right
        omega
    · rw [if_neg h2]
      have h2f : HasPrefix text "Accumulated power on time, hours:minutes".toList = false := by
        simpa using h2
      have hrhs : ¬ ((HasPrefix text "Current Drive Temperature:".toList = true ∧
            (Fields text).length < 4) ∨
          (HasPrefix text "Current Drive Temperature:".toList = false ∧
            HasPrefix text "Accumulated power on time, hours:minutes".toList = true ∧
            (Fields text).length < 6)) := by
        rw [h1f, h2f]
        simp
      refine iff_of_false ?_ hrhs
      by_cases h3 : (decide ((Fields text).length > 1) &&
          (Fields text)[0]? == some "Temperature:".toList) = true
      · rw [if_pos h3]
        have hl : 1 < (Fields text).length := by
          simp only [Bool.and_eq_true, decide_eq_true_eq] at h3
          exact h3.1
        rw [hidx 1 hl]
        simp [Except.map]
      · rw [if_neg h3]
        by_cases h4 : (decide ((Fields text).length > 3) &&
            (Fields text).getD 0 [] ++ (Fields text).getD 1 [] ++ (Fields text).getD 2 [] ==
              "PowerOnHours:".toList) = true
        · rw [if_pos h4]
          have hl : 3 < (Fields text).length := by
            simp only [Bool.and_eq_true, decide_eq_true_eq] at h4
            exact h4.1
          rw [hidx 3 hl]
          simp [Except.map]
        · rw [if_neg h4]
          by_cases h5 : (Contains text "self-assessment ".toList ||
              Contains text "SMART Health Status:".toList) = true
          · rw [if_pos h5]
            have hne : Fields text ≠ [] := by
              simp only [Bool.or_eq_true] at h5
              rcases h5 with h5 | h5
              · exact Fields_ne_nil_of_Contains text _ 's' (by decide) (by decide) h5
              · exact Fields_ne_nil_of_Contains text _ 'S' (by decide) (by decide) h5
            cases hg : (Fields text).getLast? with
            | none => exact absurd (List.getLast?_eq_none_iff.mp hg) hne
            | some v => simp
          · rw [if_neg h5]
            by_cases h6 : decide ((Fields text).length < 10) = true
            · rw [if_pos h6]
              simp
            · rw [if_neg h6]
              have hlen : 10 ≤ (Fields text).length := by simpa using h6
              rw [hidx 1 (by omega), hidx 9 (by omega)]
              simp only [Except.bind, Except.map]
              by_cases h7 : (HasPrefix ((Fields text)[1]?.getD []) "Airflow_Temp".toList ||
                  HasPrefix ((Fields text)[1]?.getD []) "Temperature_Cel".toList) = true
              · rw [if_pos h7]
                simp
              · rw [if_neg h7]
                by_cases h8 : HasPrefix ((Fields text)[1]?.getD []) "Power_On_Hour".toList = true
                · rw [if_pos h8]
                  simp
                · rw [if_neg h8]
                  simp

/-! ### C6: which devices the block enumerator leaves out -/

theorem toLowerRune_letter (tbl : Char → Char) (c lo up : Char)
    (hlo : toLowerRune tbl lo = lo) (hup : toLowerRune tbl up = lo)
    (h : (c == lo || c == up) = true) : toLowerRune tbl c = lo := by
  simp only [Bool.or_eq_true, beq_iff_eq] at h
  rcases h with h | h
  · rw [h, hlo]
  · rw [h, hup]

/-- Go's `strings.ToLower` maps every letter case of `unknown` to `unknown`,
whatever the Unicode table holds. -/
theorem ToLower_unknownAnyCase (tbl : Char → Char) (s : GoString)
    (h : unknownAnyCase s = true) : ToLower tbl s = "unknown".toList := by
  match s, h with
  | [a, b, c, d, e, f, g], h =>
    simp only [unknownAnyCase, Bool.and_eq_true] at h
    obtain ⟨⟨⟨⟨⟨⟨ha, hb⟩, hc⟩, hd⟩, he⟩, hf⟩, hg⟩ := h
    show [toLowerRune tbl a, toLowerRune tbl b, toLowerRune tbl c, toLowerRune tbl d,
      toLowerRune tbl e, toLowerRune tbl f, toLowerRune tbl g] = _
    rw [toLowerRune_letter tbl a 'u' 'U' rfl rfl ha, toLowerRune_letter tbl b 'n' 'N' rfl rfl hb,
      toLowerRune_letter tbl c 'k' 'K' rfl rfl hc, toLowerRune_letter tbl d 'n' 'N' rfl rfl hd,
      toLowerRune_letter tbl e 'o' 'O' rfl rfl he, toLowerRune_letter tbl f 'w' 'W' rfl rfl hf,
      toLowerRune_letter tbl g 'n' 'N' rfl rfl hg]
    rfl

/-- The loop of `getBlocks` from an empty `have` takes the `continue` branch for a
device exactly when the dedup rule holds of it. -/
theorem getBlocksLoop_skip_iff (h : Host) (disks : DiskSet) (i : Nat) (d : BlockDisk)
    (hd : h.blockDisks[i]? = some d) :
    ((getBlocksLoop h [] disks h.blockDisks).2[i]? = some true ↔
      skipRule h.lowerTable h.blockDisks i d) ∧
    ((getBlocksLoop h [] disks h.blockDisks).2[i]? = some false ↔
      ¬ skipRule h.lowerTable h.blockDisks i d) := by
  have hi : i < (getBlocksLoop h [] disks h.blockDisks).2.length := by
    rw [getBlocksLoop_length]
    by_contra hlt
    rw [List.getElem?_eq_none (by omega)] at hd
    cases hd
  have htrace := getBlocksLoop_trace h h.blockDisks [] disks i d hd
  simp only [List.not_mem_nil, false_or] at htrace
  refine ⟨htrace, ?_⟩
  unfold skipRule
  rw [← htrace, List.getElem?_eq_getElem hi]
  cases (getBlocksLoop h [] disks h.blockDisks).2[i] <;> simp

/-- C6: with the block inventory available, `getBlocks` skips the device at position
`i` exactly when an earlier device of the list reported the same bus path and that
bus path, lower-cased, is not "unknown".  The effect is stated on the disk set
itself: a device the rule does not hold of has its canonical name in the resulting
disk set, with an empty hint; a key that is not the canonical name of such a device
has the hint it had before, so a device the rule holds of is left out: unless
another, kept device has the same canonical name, its name is a key afterwards only
if it was one before.  A device whose bus path is `unknown` in any letter case is
never skipped and is inserted, also when an earlier device reported the very same
bus path. -/
theorem getBlocks_dedup (h : Host) (disks : DiskSet) (i : Nat) (d : BlockDisk)
    (herr : h.blockErr = none) (hd : h.blockDisks[i]? = some d) :
    (getBlocks h disks).2 = none ∧
    (getBlocks h disks).1 = (getBlocksLoop h [] disks h.blockDisks).1 ∧
    ((getBlocksLoop h [] disks h.blockDisks).2[i]? = some true ∨
      (getBlocksLoop h [] disks h.blockDisks).2[i]? = some false) ∧
    ((getBlocksLoop h [] disks h.blockDisks).2[i]? = some true ↔
      (∃ j d1, j < i ∧ h.blockDisks[j]? = some d1 ∧ d1.BusPath = d.BusPath) ∧
        ToLower h.lowerTable d.BusPath ≠ "unknown".toList) ∧
    ((getBlocksLoop h [] disks h.blockDisks).2[i]? = some false →
      (getBlocks h disks).1.get? (canonicalName h.IsWindows d.Name) = some []) ∧
    (ToLower h.lowerTable d.BusPath = "unknown".toList →
      (getBlocks h disks).1.get? (canonicalName h.IsWindows d.Name) = some []) ∧
    (¬ skipRule h.lowerTable h.blockDisks i d →
      (getBlocks h disks).1.get? (canonicalName h.IsWindows d.Name) = some []) ∧
    (∀ k : GoString,
      (∀ (j : Nat) (d2 : BlockDisk), h.blockDisks[j]? = some d2 →
        ¬ skipRule h.lowerTable h.blockDisks j d2 → canonicalName h.IsWindows d2.Name ≠ k) →
      (getBlocks h disks).1.get? k = disks.get? k) ∧
    (skipRule h.lowerTable h.blockDisks i d →
      (∀ (j : Nat) (d2 : BlockDisk), h.blockDisks[j]? = some d2 →
        ¬ skipRule h.lowerTable h.blockDisks j d2 →
        canonicalName h.IsWindows d2.Name ≠ canonicalName h.IsWindows d.Name) →
      (getBlocks h disks).1.get? (canonicalName h.IsWindows d.Name) =
        disks.get? (canonicalName h.IsWindows d.Name)) ∧
    (unknownAnyCase d.BusPath = true →
      ToLower h.lowerTable d.BusPath = "unknown".toList ∧
      ¬ skipRule h.lowerTable h.blockDisks i d ∧
      (getBlocksLoop h [] disks h.blockDisks).2[i]? = some false ∧
      (getBlocks h disks).1.get? (canonicalName h.IsWindows d.Name) = some []) := by
  have hres : getBlocks h disks = ((getBlocksLoop h [] disks h.blockDisks).1, none) := by
    unfold getBlocks
    rw [herr]
  obtain ⟨hskip, hkeep⟩ := getBlocksLoop_skip_iff h disks i d hd
  have hcases : (getBlocksLoop h [] disks h.blockDisks).2[i]? = some true ∨
      (getBlocksLoop h [] disks h.blockDisks).2[i]? = some false := by
    by_cases hr : skipRule h.lowerTable h.blockDisks i d
    · exact Or.inl (hskip.mpr hr)
    · exact Or.inr (hkeep.mpr hr)
  have hins : ¬ skipRule h.lowerTable h.blockDisks i d →
      (getBlocks h disks).1.get? (canonicalName h.IsWindows d.Name) = some [] := by
    intro hr
    rw [hres]
    exact getBlocksLoop_inserted h h.blockDisks [] disks i d hd (hkeep.mpr hr)
  have hframe : ∀ k : GoString,
      (∀ (j : Nat) (d2 : BlockDisk), h.blockDisks[j]? = some d2 →
        ¬ skipRule h.lowerTable h.blockDisks j d2 → canonicalName h.IsWindows d2.Name ≠ k) →
      (getBlocks h disks).1.get? k = disks.get? k := by
    intro k hk
    rw [hres]
    apply getBlocksLoop_frame h h.blockDisks [] disks k
    intro j d2 hd2 ht
    exact hk j d2 hd2 ((getBlocksLoop_skip_iff h disks j d2 hd2).2.mp ht)
  refine ⟨by rw [hres], by rw [hres], hcases, hskip, ?_, ?_, hins, hframe, ?_, ?_⟩
  · intro ht
    exact hins (hkeep.mp ht)
  · intro hu
    exact hins (fun hr => hr.2 hu)
  · intro _ hothers
    exact hframe _ hothers
  · intro hu
    have hl := ToLower_unknownAnyCase h.lowerTable d.BusPath hu
    have hr : ¬ skipRule h.lowerTable h.blockDisks i d := fun hr => hr.2 hl
    exact ⟨hl, hr, hkeep.mpr hr, hins hr⟩

/-- Witness of C6: on `multipathHost` the device `sdb` repeats the bus path of `sda`
and is left out of the disk set, while `sdd`, which repeats the bus path `Unknown` of
`sdc` letter for letter, is inserted. -/
theorem getBlocks_dedup_witness :
    multipathHost.blockErr = none ∧
    multipathHost.blockDisks[1]? = some ⟨"sdb".toList, "pci-0000:03:00.0-sas-1".toList⟩ ∧
    multipathHost.blockDisks[3]? = some ⟨"sdd".toList, "Unknown".toList⟩ ∧
    (getBlocks multipathHost GoMap.make).1.get? "/dev/sdb".toList = none ∧
    (getBlocks multipathHost GoMap.make).1.get? "/dev/sdd".toList = some [] :=
  have hsdb : skipRule multipathHost.lowerTable multipathHost.blockDisks 1
      ⟨"sdb".toList, "pci-0000:03:00.0-sas-1".toList⟩ :=
    ⟨⟨0, ⟨"sda".toList, "pci-0000:03:00.0-sas-1".toList⟩, by decide, rfl, rfl⟩, by decide⟩
  ⟨rfl, rfl, rfl,
   (getBlocks_dedup multipathHost GoMap.make 1 ⟨"sdb".toList, "pci-0000:03:00.0-sas-1".toList⟩
      rfl rfl).2.2.2.2.2.2.2.2.1 hsdb (by
        intro j d2 hd2 hkept
        match j, hd2 with
        | 0, hd2 =>
          have hd3 : d2 = ⟨"sda".toList, "pci-0000:03:00.0-sas-1".toList⟩ :=
            (Option.some.inj hd2).symm
          subst hd3
          decide
        | 1, hd2 =>
          have hd3 : d2 = ⟨"sdb".toList, "pci-0000:03:00.0-sas-1".toList⟩ :=
            (Option.some.inj hd2).symm
          subst hd3
          exact absurd hsdb hkept
        | 2, hd2 =>
          have hd3 : d2 = ⟨"sdc".toList, "Unknown".toList⟩ := (Option.some.inj hd2).symm
          subst hd3
          decide
        | 3, hd2 =>
          have hd3 : d2 = ⟨"sdd".toList, "Unknown".toList⟩ := (Option.some.inj hd2).symm
          subst hd3
          decide
        | n + 4, hd2 => cases hd2),
   ((getBlocks_dedup multipathHost GoMap.make 3 ⟨"sdd".toList, "Unknown".toList⟩
      rfl rfl).2.2.2.2.2.2.2.2.2 (by decide)).2.2.2⟩

/-! ### C10: what is stored when the operand does not parse -/

theorem digitsValue_ge (ds : List Char) (n : Nat) : n ≤ digitsValue ds n := by
  induction ds generalizing n with
  | nil => exact Nat.le_refl n
  | cons c cs ih =>
    unfold digitsValue
    exact Nat.le_trans (by omega) (ih _)

/-- On a run of digits `ParseUint` returns the number the digits denote, or the
largest 64-bit value with a range error when that number does not fit. -/
theorem parseUint_digits (ds : List Char) (n : Nat) (hds : ds.all isDigit = true)
    (hn : n ≤ 2 ^ 64 - 1) :
    parseUint ds n =
      if digitsValue ds n ≤ 2 ^ 64 - 1 then (digitsValue ds n, none)
      else (2 ^ 64 - 1, some NumError.ErrRange) := by
  induction ds generalizing n with
  | nil =>
    unfold parseUint digitsValue
    rw [if_pos hn]
  | cons c cs ih =>
    simp only [List.all_cons, Bool.and_eq_true] at hds
    unfold parseUint digitsValue
    rw [if_pos hds.1]
    dsimp only
    by_cases hgt : n * 10 + (c.toNat - '0'.toNat) > 2 ^ 64 - 1
    · rw [if_pos hgt]
      have hge := digitsValue_ge cs (n * 10 + (c.toNat - '0'.toNat))
      rw [if_neg (by omega)]
    · rw [if_neg hgt]
      exact ih _ hds.2 (by omega)

/-- On a decimal numeral `Atoi` returns the value of type `int` nearest to the number
the numeral denotes, with a range error exactly when that number is not an `int`. -/
theorem Atoi_numeral (s : GoString) (v : Int) (h : numeralValue s = some v) :
    Atoi s = (nearestInt v,
      if -(2 : Int) ^ 63 ≤ v ∧ v ≤ (2 : Int) ^ 63 - 1 then none else some NumError.ErrRange) := by
  unfold numeralValue at h
  unfold Atoi Atoi.signed nearestInt
  generalize hds : (if (s.head? == some '-' || s.head? == some '+') = true then s.drop 1 else s)
    = ds at h ⊢
  generalize hneg : (s.head? == some '-') = neg at h ⊢
  dsimp only at h
  by_cases hok : (!ds.isEmpty && ds.all isDigit) = true
  · rw [if_pos hok] at h
    simp only [Bool.and_eq_true, Bool.not_eq_true'] at hok
    obtain ⟨hne, hall⟩ := hok
    rw [hne]
    simp only [Bool.false_eq_true, if_false]
    rw [parseUint_digits ds 0 hall (by norm_num)]
    injection h with h
    by_cases hfit : digitsValue ds 0 ≤ 2 ^ 64 - 1
    · rw [if_pos hfit]
      dsimp only
      cases neg with
      | true =>
        simp only [if_true] at h
        simp only [Bool.not_true, Bool.false_and, Bool.false_eq_true, if_false, Bool.true_and,
          decide_eq_true_eq, if_true]
        subst h
        split_ifs <;> first | rfl | omega
      | false =>
        simp only [Bool.false_eq_true, if_false] at h
        simp only [Bool.not_false, Bool.true_and, decide_eq_true_eq, Bool.false_and,
          Bool.false_eq_true, if_false]
        subst h
        split_ifs <;> first | rfl | omega
    · rw [if_neg hfit]
      dsimp only
      cases neg with
      | true =>
        simp only [if_true] at h
        simp only [Bool.not_true, Bool.false_and, Bool.false_eq_true, if_false, Bool.true_and,
          decide_eq_true_eq, if_true]
        subst h
        split_ifs <;> first | rfl | omega
      | false =>
        simp only [Bool.false_eq_true, if_false] at h
        simp only [Bool.not_false, Bool.true_and, decide_eq_true_eq, Bool.false_and,
          Bool.false_eq_true, if_false]
        subst h
        split_ifs <;> first | rfl | omega
  · rw [if_neg hok] at h
    cases h

/-- On a range error `ParseInt` returns the bound of `int` on the side of the sign. -/
theorem Atoi_signed_range_value (neg : Bool) (body : GoString)
    (h : (Atoi.signed neg body).2 = some NumError.ErrRange) :
    (Atoi.signed neg body).1 = if neg then -(2 : Int) ^ 63 else (2 : Int) ^ 63 - 1 := by
  unfold Atoi.signed at h ⊢
  generalize parseUint body 0 = r at h ⊢
  obtain ⟨un, err⟩ := r
  have key :
      ((if (!neg && decide (un ≥ 2 ^ 63)) = true then
          ((2 : Int) ^ 63 - 1, some NumError.ErrRange)
        else if (neg && decide (un > 2 ^ 63)) = true then
          (-(2 : Int) ^ 63, some NumError.ErrRange)
        else (if neg = true then -(un : Int) else (un : Int), none)).2 =
          some NumError.ErrRange →
      (if (!neg && decide (un ≥ 2 ^ 63)) = true then
          ((2 : Int) ^ 63 - 1, some NumError.ErrRange)
        else if (neg && decide (un > 2 ^ 63)) = true then
          (-(2 : Int) ^ 63, some NumError.ErrRange)
        else (if neg = true then -(un : Int) else (un : Int), none)).1 =
        if neg = true then -(2 : Int) ^ 63 else (2 : Int) ^ 63 - 1) := by
    intro hx
    cases neg with
    | false =>
      by_cases hu : un ≥ 2 ^ 63
      · have hc : (!false && decide (un ≥ 2 ^ 63)) = true := by
          rw [Bool.not_false, Bool.true_and]
          exact decide_eq_true hu
        rw [if_pos hc]
        rfl
      · have hc : ¬ (!false && decide (un ≥ 2 ^ 63)) = true := by
          rw [Bool.not_false, Bool.true_and]
          exact fun hh => hu (of_decide_eq_true hh)
        rw [if_neg hc] at hx
        have hc2 : ¬ (false && decide (un > 2 ^ 63)) = true := by
          rw [Bool.false_and]
          exact Bool.false_ne_true
        rw [if_neg hc2] at hx
        cases hx
    | true =>
      have hc : ¬ (!true && decide (un ≥ 2 ^ 63)) = true := by
        rw [Bool.not_true, Bool.false_and]
        exact Bool.false_ne_true
      rw [if_neg hc] at hx ⊢
      by_cases hu : un > 2 ^ 63
      · have hc2 : (true && decide (un > 2 ^ 63)) = true := by
          rw [Bool.true_and]
          exact decide_eq_true hu
        rw [if_pos hc2]
        rfl
      · have hc2 : ¬ (true && decide (un > 2 ^ 63)) = true := by
          rw [Bool.true_and]
          exact fun hh => hu (of_decide_eq_true hh)
        rw [if_neg hc2] at hx
        cases hx
  by_cases hb : body.isEmpty = true
  · rw [if_pos hb] at h
    cases h
  · rw [if_neg hb] at h ⊢
    rcases err with _ | _ | _
    · exact key h
    · cases h
    · exact key h

/-- C10 (amended): when the case selected for a line is a temperature (respectively
age) assignment whose operand `Atoi` rejects, `scanSmartctl` reports nothing and
stores the value `Atoi` returns beside the error: the disk gets an entry in
`DriveTemps` (respectively `DriveAges`) and the other maps are not written.  The
value is 0 on a syntax error.  On a range error it is the bound of `int` on the side
of the sign of the operand, `-2^63` after a minus sign and `2^63-1` otherwise; an
operand that is a decimal numeral is rejected only with a range error, the number it
denotes is then not an `int`, and the value stored is the `int` nearest to it. -/
theorem scanLine_parse_failure (ages temps : GoMap Int) (health : Option (GoMap GoString))
    (calls : List Invocation) (name text arg : GoString) (e : NumError)
    (hfail : (Atoi arg).2 = some e) :
    (scanCase text = Except.ok (Assign.DriveTemps arg) →
      scanLine ⟨some ages, some temps, health, calls⟩ name text =
        Except.ok ⟨some ages, some (temps.set name (Atoi arg).1), health, calls⟩ ∧
      (temps.set name (Atoi arg).1).get? name = some (Atoi arg).1) ∧
    (scanCase text = Except.ok (Assign.DriveAges arg) →
      scanLine ⟨some ages, some temps, health, calls⟩ name text =
        Except.ok ⟨some (ages.set name (Atoi arg).1), some temps, health, calls⟩ ∧
      (ages.set name (Atoi arg).1).get? name = some (Atoi arg).1) ∧
    (e = NumError.ErrSyntax → (Atoi arg).1 = 0) ∧
    (e = NumError.ErrRange →
      (Atoi arg).1 = (2 : Int) ^ 63 - 1 ∨ (Atoi arg).1 = -(2 : Int) ^ 63) ∧
    (e = NumError.ErrRange →
      (arg.head? = some '-' → (Atoi arg).1 = -(2 : Int) ^ 63) ∧
      (arg.head? ≠ some '-' → (Atoi arg).1 = (2 : Int) ^ 63 - 1)) ∧
    (∀ v : Int, numeralValue arg = some v →
      e = NumError.ErrRange ∧ (v > (2 : Int) ^ 63 - 1 ∨ v < -(2 : Int) ^ 63) ∧
      (v > (2 : Int) ^ 63 - 1 → (Atoi arg).1 = (2 : Int) ^ 63 - 1) ∧
      (v < -(2 : Int) ^ 63 → (Atoi arg).1 = -(2 : Int) ^ 63) ∧
      (Atoi arg).1 = nearestInt v) := by
  refine ⟨?_, ?_, (Atoi_error_value arg e hfail).1, (Atoi_error_value arg e hfail).2, ?_, ?_⟩
  · intro hc
    refine ⟨?_, GoMap.get?_set_self temps name _⟩
    unfold scanLine
    rw [hc]
    simp only [Except.bind, assign]
  · intro hc
    refine ⟨?_, GoMap.get?_set_self ages name _⟩
    unfold scanLine
    rw [hc]
    simp only [Except.bind, assign]
  · intro he
    subst he
    have hv := Atoi_signed_range_value _ _ hfail
    constructor
    · intro hm
      have hb : (arg.head? == some '-') = true := by rw [hm]; rfl
      unfold Atoi
      rw [hv, hb]
      rfl
    · intro hm
      have hb : (arg.head? == some '-') = false := by simpa using hm
      unfold Atoi
      rw [hv, hb]
      rfl
  · intro v hv
    have ha := Atoi_numeral arg v hv
    rw [ha] at hfail
    dsimp only at hfail
    by_cases hin : -(2 : Int) ^ 63 ≤ v ∧ v ≤ (2 : Int) ^ 63 - 1
    · rw [if_pos hin] at hfail
      cases hfail
    · rw [if_neg hin] at hfail
      injection hfail with hfail
      have hout : v > (2 : Int) ^ 63 - 1 ∨ v < -(2 : Int) ^ 63 := by omega
      rw [ha]
      dsimp only
      refine ⟨hfail.symm, hout, ?_, ?_, rfl⟩
      · intro hgt
        unfold nearestInt
        rw [if_pos hgt]
      · intro hlt
        unfold nearestInt
        rw [if_neg (by omega), if_pos hlt]

/-- Witness of C10 (amended): an age row whose raw value is not a number stores 0,
and a temperature line whose number has 20 digits stores the largest `int`. -/
theorem scanLine_parse_failure_witness :
    (Atoi "n/a".toList).2 = some NumError.ErrSyntax ∧
    scanCase "9 Power_On_Hours 0x0032 100 100 000 Old_age Always - n/a".toList =
      Except.ok (Assign.DriveAges "n/a".toList) ∧
    scanLine Snapshot.allocated "/dev/sda".toList
      "9 Power_On_Hours 0x0032 100 100 000 Old_age Always - n/a".toList =
        Except.ok ⟨some (GoMap.set GoMap.make "/dev/sda".toList (Atoi "n/a".toList).1),
          some GoMap.make, some GoMap.make, []⟩ ∧
    (Atoi "n/a".toList).1 = 0 ∧
    (Atoi "99999999999999999999".toList).2 = some NumError.ErrRange ∧
    numeralValue "99999999999999999999".toList = some 99999999999999999999 ∧
    (Atoi "99999999999999999999".toList).1 = (2 : Int) ^ 63 - 1 :=
  ⟨by decide, by decide,
   ((scanLine_parse_failure GoMap.make GoMap.make (some GoMap.make) [] "/dev/sda".toList
      "9 Power_On_Hours 0x0032 100 100 000 Old_age Always - n/a".toList "n/a".toList
      NumError.ErrSyntax (by decide)).2.1 (by decide)).1,
   (scanLine_parse_failure GoMap.make GoMap.make (some GoMap.make) [] "/dev/sda".toList
      "9 Power_On_Hours 0x0032 100 100 000 Old_age Always - n/a".toList "n/a".toList
      NumError.ErrSyntax (by decide)).2.2.1 rfl,
   by decide, by decide,
   ((scanLine_parse_failure GoMap.make GoMap.make (some GoMap.make) [] "/dev/sda".toList
      "Temperature: 99999999999999999999".toList "99999999999999999999".toList
      NumError.ErrRange (by decide)).2.2.2.2.2 99999999999999999999 (by decide)).2.2.1
      (by decide)⟩

/-! ### C12: which stages run on which platform -/

/-- C12 (amended): Device Discovery runs first on every platform; the Scan-Tool Probe
and the Block Enumerator sit behind the same platform gate.  On every Darwin host
both are skipped: the merged disk set is the one `getParts` built and no command is
called.  On every other host the probe runs on the result of `getParts` and the
enumerator on the result of the probe; when the block inventory is available, every
device the enumerator keeps (every device the dedup rule does not hold of) is a key
of the merged disk set. -/
theorem discover_stages (h : Host) (s : Snapshot) (useSudo : Bool) :
    (h.IsDarwin = true →
      (discover h s useSudo).2.1 = (getParts h GoMap.make).1 ∧
      (discover h s useSudo).1 = s) ∧
    (h.IsDarwin = false →
      (discover h s useSudo).2.1 =
        (getBlocks h (getSmartDisks h s useSudo (getParts h GoMap.make).1).2.1).1 ∧
      (discover h s useSudo).1 = (getSmartDisks h s useSudo (getParts h GoMap.make).1).1 ∧
      (h.blockErr = none → ∀ (i : Nat) (d : BlockDisk), h.blockDisks[i]? = some d →
        ((getBlocksLoop h [] (getSmartDisks h s useSudo (getParts h GoMap.make).1).2.1
            h.blockDisks).2[i]? = some false →
          (discover h s useSudo).2.1.get? (canonicalName h.IsWindows d.Name) = some []) ∧
        (¬ skipRule h.lowerTable h.blockDisks i d →
          (discover h s useSudo).2.1.get? (canonicalName h.IsWindows d.Name) = some []))) := by
  constructor
  · intro hdar
    unfold discover
    simp only [hdar, Bool.not_true, Bool.false_eq_true, if_false, and_self]
  · intro hdar
    have h1 : (discover h s useSudo).2.1 =
        (getBlocks h (getSmartDisks h s useSudo (getParts h GoMap.make).1).2.1).1 := by
      unfold discover
      simp only [hdar, Bool.not_false, if_true]
    have h2 : (discover h s useSudo).1 =
        (getSmartDisks h s useSudo (getParts h GoMap.make).1).1 := by
      unfold discover
      simp only [hdar, Bool.not_false, if_true]
    refine ⟨h1, h2, ?_⟩
    intro herr i d hd
    have hkept : (getBlocksLoop h [] (getSmartDisks h s useSudo (getParts h GoMap.make).1).2.1
          h.blockDisks).2[i]? = some false →
        (discover h s useSudo).2.1.get? (canonicalName h.IsWindows d.Name) = some [] := by
      intro ht
      rw [h1]
      unfold getBlocks
      rw [herr]
      exact getBlocksLoop_inserted h h.blockDisks [] _ i d hd ht
    exact ⟨hkept, fun hr => hkept ((getBlocksLoop_skip_iff h _ i d hd).2.mpr hr)⟩

/-- Witness of C12 (amended): on the Darwin host `macHost` the merged disk set is the
one `getParts` built; on `linuxHost` the enumerator keeps `sda` and `/dev/sda` is a
key of the merged set. -/
theorem discover_stages_witness :
    macHost.IsDarwin = true ∧
    (discover macHost Snapshot.fresh false).2.1 = (getParts macHost GoMap.make).1 ∧
    (discover macHost Snapshot.fresh false).1 = Snapshot.fresh ∧
    linuxHost.IsDarwin = false ∧ linuxHost.blockErr = none ∧
    (discover linuxHost Snapshot.fresh false).2.1.get? "/dev/sda".toList = some [] :=
  ⟨rfl, ((discover_stages macHost Snapshot.fresh false).1 rfl).1,
   ((discover_stages macHost Snapshot.fresh false).1 rfl).2, rfl, rfl,
   (((discover_stages linuxHost Snapshot.fresh false).2 rfl).2.2 rfl 0
      ⟨"sda".toList, "pci-0000:00:1f.2-ata-1".toList⟩ rfl).1 (by decide)⟩

/-! ### C14: a failing invocation that stops the cycle -/

/-- C14: the code at the failing input.  On `crashHost` the merged disk set holds
`/dev/sda1` and `/dev/sda`; the invocation for `/dev/sda1` fails with exit status 4
after printing only `Current Drive Temperature:`.  The parser panics on that line,
so the cycle is aborted: `getDriveData` returns no error list, the error of the
failed invocation is lost and `/dev/sda` is never queried. -/
theorem getDriveData_crash_aborts :
    (discover crashHost Snapshot.fresh false).2.1.entries =
      [("/dev/sda1".toList, []), ("/dev/sda".toList, [])] ∧
    crashHost.rangeOrder (discover crashHost Snapshot.fresh false).2.1.entries =
      [("/dev/sda1".toList, []), ("/dev/sda".toList, [])] ∧
    crashHost.command false "smartctl".toList ["-AH".toList, "/dev/sda1".toList] =
      CmdResult.ran ["Current Drive Temperature:".toList]
        (some (GoError.external "exit status 4".toList)) ∧
    diskError crashHost false "/dev/sda1".toList [] =
      some (GoError.external "exit status 4".toList) ∧
    diskOk crashHost false "/dev/sda1".toList [] = false ∧
    getDiskData crashHost Snapshot.allocated "/dev/sda1".toList [] false =
      Except.error Panic.indexOutOfRange ∧
    getDriveData crashHost Snapshot.fresh true false = Except.error Panic.indexOutOfRange := by
  decide

end Smartctl
